import Mathlib

/-!
Verification development for the EDIFACT COMTFR segment decoder
(`EDI.py`, function `convert_lg` and its helpers).  The Python source is
shallowly embedded: strings are Lean `String`s manipulated through
character lists, Python dicts become association lists, and the single
fallible operation (`rows_by_message[key]` on a missing key, a `KeyError`)
becomes `Except Unit`.  All definitions are executable so that concrete
interchanges can be evaluated inside proofs.
-/

set_option maxRecDepth 20000

deriving instance DecidableEq for Except

namespace EDI

/-- The apostrophe character (segment terminator in EDIFACT). -/
def aposC : Char := Char.ofNat 39

/-- The apostrophe as a one-character string, used to build test inputs. -/
def apos : String := String.mk [aposC]

/-- Python whitespace class for `str.strip` / regex `\s` on ASCII input:
space, tab, newline, vertical tab, form feed, carriage return. -/
def pyWs (c : Char) : Bool :=
  c == ' ' || c == '\t' || c == '\n' || c == Char.ofNat 11 || c == Char.ofNat 12 || c == '\r'

/-- Models Python `s.strip()` (for the ASCII whitespace actually present in
EDI files). -/
def pyStrip (s : String) : String :=
  String.mk (((s.toList.dropWhile pyWs).reverse.dropWhile pyWs).reverse)

/-- Models Python `str.split(sep)` for a single-character separator:
keeps empty pieces, `"" ↦ [""]`. -/
def splitChar (sep : Char) : List Char → List (List Char)
  | [] => [[]]
  | c :: cs =>
    if c == sep then [] :: splitChar sep cs
    else
      match splitChar sep cs with
      | h :: t => (c :: h) :: t
      | [] => [[c]]

/-- The split `splitChar` lifted to `String`. -/
def splitCS (s : String) (sep : Char) : List String :=
  (splitChar sep s.toList).map String.mk

/-- Models Python `s.split(sep, 1)` for a single-character separator,
assuming the separator occurs (as guarded at every call site). -/
def splitFirstS (s : String) (c : Char) : String × String :=
  let l := s.toList
  (String.mk (l.takeWhile (fun d => d != c)), String.mk ((l.dropWhile (fun d => d != c)).drop 1))

/-- Models Python `sep in s` for a single-character `sep`. -/
def containsC (s : String) (c : Char) : Bool :=
  s.toList.any (fun d => d == c)

/-- Models Python `s.startswith(pre)`. -/
def startsWithS (s pre : String) : Bool :=
  pre.toList.isPrefixOf s.toList

/-- Models the composition `text.replace("\r\n", "\n").replace("\r", "\n")`
from `parse_edi_segments`: a CRLF pair becomes one LF, a lone CR becomes LF. -/
def normNewlines : List Char → List Char
  | [] => []
  | '\r' :: '\n' :: cs => '\n' :: normNewlines cs
  | '\r' :: cs => '\n' :: normNewlines cs
  | c :: cs => c :: normNewlines cs

/-- The literal scanned for by the header-stripping regex. -/
def eohChars : List Char := "End-of-Header:".toList

/-- The suffix of `xs` after its last newline, or `none` if `xs` has no
newline.  Used to model the greedy backtracking of `\s*\n`. -/
def afterLastNl : List Char → Option (List Char)
  | [] => none
  | c :: cs =>
    match afterLastNl cs with
    | some t => some t
    | none => if c == '\n' then some cs else none

/-- At a line start, try to match the regex `End-of-Header:\s*\n`
(Python `re.sub` with `re.MULTILINE`): the literal, then the maximal
whitespace run up to and including its last newline.  Returns the rest of
the input after the match, or `none` when there is no match here. -/
def eohTail (cs : List Char) : Option (List Char) :=
  if eohChars.isPrefixOf cs then
    let rest := cs.drop eohChars.length
    let run := rest.takeWhile pyWs
    match afterLastNl run with
    | some b => some (b ++ rest.drop run.length)
    | none => none
  else none

/-- Fueled scanner for `re.sub(r"^End-of-Header:\s*\n", "", raw, re.MULTILINE)`:
at each line start, remove a match if present, otherwise copy the line.
The fuel only needs to exceed the input length (each step consumes at
least one character), so `subHdr` below supplies `cs.length`. -/
def subHdrF : Nat → List Char → List Char
  | 0, _ => []
  | fuel + 1, cs =>
    match eohTail cs with
    | some r => subHdrF fuel r
    | none =>
      match cs with
      | [] => []
      | _ :: _ =>
        let line := cs.takeWhile (fun c => c != '\n')
        match cs.drop line.length with
        | [] => line
        | d :: rest => line ++ d :: subHdrF fuel rest

/-- The header-stripping substitution from `parse_edi_segments`. -/
def subHdr (cs : List Char) : List Char := subHdrF cs.length cs

/-- The tokenizer `parse_edi_segments`: normalise line endings, strip `End-of-Header:`
lines, split on apostrophes, strip each piece, drop blank pieces. -/
def parse_edi_segments (text : String) : List String :=
  let raw := String.mk (normNewlines text.toList)
  let raw2 := String.mk (subHdr raw.toList)
  ((splitChar aposC raw2.toList).map (fun l => pyStrip (String.mk l))).filter
    (fun s => s != "")

/-- The segment splitter `tokenise`: split a segment on `+` into tag and field list
(`parts[0], parts[1:]`; the split list is never empty). -/
def tokenise (segment : String) : String × List String :=
  match splitCS segment '+' with
  | t :: fs => (t, fs)
  | [] => ("", [])

/-- The tag of a segment string. -/
def tagOf (segment : String) : String := (tokenise segment).1

/-- Padding helper `keep_spaces`: pad a token with trailing spaces to `width`
(`if width and len(token) < width`). -/
def keep_spaces (token : String) (width : Nat) : String :=
  if width ≠ 0 ∧ token.length < width then
    token ++ String.mk (List.replicate (width - token.length) ' ')
  else token

/-- Zero stripping `lstrip_zeros`: `None` maps to `""`, otherwise strip leading zeros but map a
result that became empty back to `"0"`. -/
def lstrip_zeros (s : Option String) : String :=
  match s with
  | none => ""
  | some s =>
    let t := String.mk (s.toList.dropWhile (fun c => c == '0'))
    if t = "" then "0" else t

/-- Python truthiness of `x or ""` for a string `x` (identity), and more
generally `a or b` on strings. -/
def pyOrS (a b : String) : String := if a = "" then b else a

/-- Python `str(x or "")` for an optional string: `None ↦ ""`. -/
def orEmpty (x : Option String) : String := x.getD ""

/-- Python `str(x)` on an optional string: `str(None) = "None"`. -/
def pyStr (x : Option String) : String :=
  match x with
  | none => "None"
  | some s => s

/-- Python `str(x or d)` for an optional string `x` and non-empty literal
default `d` (as in `str(chd["chd_cur_qual"] or "N")`). -/
def pyStrOr (x : Option String) (d : String) : String :=
  match x with
  | none => d
  | some s => if s = "" then d else s

/-- Python `re.fullmatch(r"\d{2}", s)`: exactly two ASCII digits. -/
def isTwoDigits (s : String) : Bool :=
  match s.toList with
  | [a, b] => a.isDigit && b.isDigit
  | _ => false

/-- Python `re.match(r"[A-Z0-9]+", s)`: the first character is an upper
case letter or digit. -/
def startsAZ09 (s : String) : Bool :=
  match s.toList with
  | [] => false
  | c :: _ => (decide ('A' ≤ c) && decide (c ≤ 'Z')) || (decide ('0' ≤ c) && decide (c ≤ '9'))

/-- Association-list lookup (Python `dict` read). -/
def lookupA {α : Type} : List (String × α) → String → Option α
  | [], _ => none
  | (k', v) :: m, k => if k' = k then some v else lookupA m k

/-- Association-list write (Python `d[k] = v`): overwrite in place, else
append. -/
def setA {α : Type} : List (String × α) → String → α → List (String × α)
  | [], k, v => [(k, v)]
  | (k', v') :: m, k, v => if k' = k then (k', v) :: m else (k', v') :: setA m k v

/-- Python `d.setdefault(k, v)` (result map). -/
def setdA {α : Type} (m : List (String × α)) (k : String) (v : α) : List (String × α) :=
  if (lookupA m k).isSome then m else m ++ [(k, v)]

/-- Python `d[k].append(i)` for a dict of lists: append to the entry of
`k` (callers establish that `k` is present). -/
def appendA : List (String × List Nat) → String → Nat → List (String × List Nat)
  | [], _, _ => []
  | (k', l) :: m, k, i => if k' = k then (k', l ++ [i]) :: m else (k', l) :: appendA m k i

/-- The dictionary built by `parse_chd_fields`. -/
structure ChdData where
  chd_amt_qual : Option String
  chd_amount : Option String
  chd_currency : Option String
  chd_cur_qual : Option String
  charge_type : Option String
  due_date : Option String
  due_date_fmt : Option String
  premium_type : Option String
  premium_amount : Option String
  premium_currency : Option String
deriving Repr, DecidableEq

/-- The scan `for idx, f in enumerate(fields[2:], start=2): if
f.startswith("CDD:")` from `parse_chd_fields`. -/
def findCddFrom : List String → Nat → Option Nat
  | [], _ => none
  | f :: fs, i => if startsWithS f "CDD:" then some i else findCddFrom fs (i + 1)

/-- Index of the first `CDD:` field at position ≥ 2. -/
def findCddIdx (fields : List String) : Option Nat :=
  findCddFrom (fields.drop 2) 2

/-- The CHD parser `parse_chd_fields`: amount composite from `fields[0]`, currency
qualifier / charge type from `fields[1]`, then the `CDD:` due-date
composite and the premium composite immediately after it.  Each record
field reproduces the corresponding Python guard. -/
def parse_chd_fields (fields : List String) : ChdData :=
  let c516 := splitCS (fields.headD "") ':'
  let cddIdx := findCddIdx fields
  { chd_amt_qual :=
      match fields with
      | [] => none
      | _ :: _ => some (keep_spaces (c516.headD "") 3)
    chd_amount :=
      match fields with
      | [] => none
      | _ :: _ => c516[1]?
    chd_currency :=
      match fields with
      | [] => none
      | _ :: _ => c516[2]?
    chd_cur_qual :=
      match fields[1]? with
      | some f1 =>
        if f1 ≠ "" then
          let c := splitCS f1 ':'
          if c.headD "" ≠ "" then some (c.headD "") else none
        else none
      | none => none
    charge_type :=
      match fields[1]? with
      | some f1 => if f1 ≠ "" then (splitCS f1 ':')[1]? else none
      | none => none
    due_date :=
      match cddIdx with
      | some i => (splitCS ((fields[i]?).getD "") ':')[1]?
      | none => none
    due_date_fmt :=
      match cddIdx with
      | some i => (splitCS ((fields[i]?).getD "") ':')[2]?
      | none => none
    premium_type :=
      match cddIdx with
      | some i =>
        match fields[i + 1]? with
        | some pf => some ((splitCS pf ':').headD "")
        | none => none
      | none => none
    premium_amount :=
      match cddIdx with
      | some i =>
        match fields[i + 1]? with
        | some pf => (splitCS pf ':')[1]?
        | none => none
      | none => none
    premium_currency :=
      match cddIdx with
      | some i =>
        match fields[i + 1]? with
        | some pf => (splitCS pf ':')[2]?
        | none => none
      | none => none }

/-- The dictionary built by `parse_pol_fields`. -/
structure PolData where
  party_qual : Option String
  name_fmt : Option String
  name : Option String
  initials : Option String
  product_code : Option String
  basis_of_sale : Option String
deriving Repr, DecidableEq

/-- The all-`None` POL dictionary before any field is set. -/
def polEmpty : PolData :=
  ⟨none, none, none, none, none, none⟩

/-- The `for i, f in enumerate(fields)` loop of `parse_pol_fields`:
stop at the first `PH`/`MR` field, recording party qualifier, the
following `format:name` composite, and a trailing short product code. -/
def polLoop (all : List String) : List String → Nat → PolData → PolData
  | [], _, d => d
  | f :: fs, i, d =>
    if f ≠ "" ∧ (f = "PH" ∨ f = "MR") then
      let d1 := { d with party_qual := some f }
      let d2 :=
        match all[i + 1]? with
        | some namefield =>
          let comp := splitCS namefield ':'
          if comp.length ≥ 2 then { d1 with name_fmt := comp.head?, name := comp[1]? }
          else d1
        | none => d1
      if all.length ≥ i + 3 then
        match all.getLast? with
        | some mp =>
          if mp ≠ "" ∧ mp.length ≤ 4 ∧ startsAZ09 mp then
            { d2 with product_code := some mp }
          else d2
        | none => d2
      else d2
    else polLoop all fs (i + 1) d

/-- The POL parser `parse_pol_fields`: basis-of-sale from a leading two-digit field,
then the party-qualifier scan. -/
def parse_pol_fields (fields : List String) : PolData :=
  let d0 :=
    match fields with
    | [] => polEmpty
    | f0 :: _ =>
      if isTwoDigits (pyOrS f0 "") then { polEmpty with basis_of_sale := some f0 }
      else polEmpty
  polLoop fields fields 0 d0

/-- The RFF parser `parse_rff_fields`: every `key:value` field becomes a dict entry. -/
def parse_rff_fields (fields : List String) : List (String × String) :=
  fields.foldl
    (fun acc f =>
      if containsC f ':' then
        let kv := splitFirstS f ':'
        setA acc kv.1 kv.2
      else acc)
    []

/-- The PDT parser `parse_pdt_fields`: the two positional fields, `""` when absent or
falsy. -/
def parse_pdt_fields (fields : List String) : String × String :=
  (match fields[0]? with
   | some f => if f = "" then "" else f
   | none => "",
   match fields[1]? with
   | some f => if f = "" then "" else f
   | none => "")

/-- The normalisation `p2 = lstrip_zeros(p2) if p2 else p2` applied to the
PDT sub-code. -/
def pdtNorm (p2 : String) : String :=
  if p2 ≠ "" then lstrip_zeros (some p2) else p2

/-- The CNT parser `parse_cnt_fields`: same `key:value` dict pattern as RFF. -/
def parse_cnt_fields (fields : List String) : List (String × String) :=
  fields.foldl
    (fun acc f =>
      if containsC f ':' then
        let kv := splitFirstS f ':'
        setA acc kv.1 kv.2
      else acc)
    []

/-- Python `seg[seg.index(pat):]` guarded by `pat in seg`: the suffix of
the character list starting at the first occurrence of the (non-empty)
pattern, or `none`. -/
def dropFrom (pat : List Char) : List Char → Option (List Char)
  | [] => none
  | c :: cs => if pat.isPrefixOf (c :: cs) then some (c :: cs) else dropFrom pat cs

/-- The scan inside `extract_unb`: first segment containing `UNB+`,
sliced from that point and split on `+`. -/
def findUnb : List String → Option (List String)
  | [] => none
  | seg :: rest =>
    match dropFrom "UNB+".toList seg.toList with
    | some suffix => some (splitCS (String.mk suffix) '+')
    | none => findUnb rest

/-- The envelope finder `extract_unb`: find and split the UNB envelope. -/
def extract_unb (text : String) : Option (List String) :=
  findUnb (parse_edi_segments text)

/-- The `meta` envelope dictionary of `convert_lg`. -/
structure UnbMeta where
  unb_sender : Option String
  unb_recipient : Option String
  unb_datetime : Option String
  unb_control_ref : Option String
deriving Repr, DecidableEq

/-- The all-`None` envelope. -/
def emptyMeta : UnbMeta := ⟨none, none, none, none⟩

/-- Lines 214-220 of `convert_lg`: populate the envelope from
`extract_unb` when it yields at least six fields (recipient is stripped
of leading zeros). -/
def unbMetaOf (text : String) : UnbMeta :=
  match extract_unb text with
  | some f =>
    if f.length ≥ 6 then
      { unb_sender := f[2]?
        unb_recipient := (f[3]?).map (fun v => lstrip_zeros (some v))
        unb_datetime := f[4]?
        unb_control_ref := f[5]? }
    else emptyMeta
  | none => emptyMeta

/-- The mutable decoder state of `convert_lg`: the `current` message
context, the output `rows`, the per-batch index buckets
`rows_by_message`, and the per-message `ifn_by_policy` map. -/
structure LGState where
  batch_seq : Option String
  BGM_PYD : Option String
  NAD_BO : Option String
  NAD_IN : Option String
  NAD_PA : Option String
  GIS : Option String
  RFF_POL : Option String
  POL : PolData
  PDT : String × String
  CNT : List (String × String)
  rows : List (List String)
  rows_by_message : List (String × List Nat)
  ifn_by_policy : List (String × String)
deriving Repr, DecidableEq

/-- The state at the top of `convert_lg`, before any segment. -/
def initState : LGState :=
  { batch_seq := none, BGM_PYD := none, NAD_BO := none, NAD_IN := none
    NAD_PA := none, GIS := none, RFF_POL := none, POL := polEmpty
    PDT := ("", ""), CNT := [], rows := [], rows_by_message := []
    ifn_by_policy := [] }

/-- The `for f2 in fields` loop of the `BGM` branch: each `PYD:`-prefixed
field updates the payment date with its second colon component. -/
def bgmScan (cur : Option String) : List String → Option String
  | [] => cur
  | f :: fs =>
    if startsWithS f "PYD:" then
      let parts := splitCS f ':'
      if parts.length > 1 then bgmScan (parts[1]?) fs else bgmScan cur fs
    else bgmScan cur fs

/-- Models `ifn = ifn_by_policy.get(policy, "")` with `policy =
current.get("RFF_POL")`: a `None` policy is never a key. -/
def ifnFor (st : LGState) : String :=
  match st.RFF_POL with
  | none => ""
  | some p => (lookupA st.ifn_by_policy p).getD ""

/-- Models `rows_by_message.get(current["batch_seq"])`: `None` when the batch
sequence is `None` (never a key) or the key is absent. -/
def bucketOf (st : LGState) : Option (List Nat) :=
  match st.batch_seq with
  | some b => lookupA st.rows_by_message b
  | none => none

/-- The 37-column row built on each `CHD` (lines 291-330 of the source),
in exact positional order. -/
def mkChdRow (meta : UnbMeta) (st : LGState) (chd : ChdData) (basis : String)
    (policy : Option String) (ifn : String) : List String :=
  [ orEmpty meta.unb_control_ref,
    orEmpty st.batch_seq,
    orEmpty st.NAD_BO,
    orEmpty st.NAD_IN,
    orEmpty st.NAD_PA,
    orEmpty st.BGM_PYD,
    orEmpty st.GIS,
    "POL",
    orEmpty policy,
    basis,
    orEmpty st.POL.party_qual,
    orEmpty st.POL.name_fmt,
    orEmpty st.POL.name,
    orEmpty st.POL.initials,
    orEmpty st.POL.product_code,
    orEmpty chd.chd_amt_qual,
    orEmpty chd.chd_amount,
    orEmpty chd.chd_currency,
    pyStrOr chd.chd_cur_qual "N",
    orEmpty chd.due_date,
    (let a := pyOrS (pyStr chd.premium_type) "";
     if a ≠ "" then String.mk (a.toList.dropWhile (fun c => c == '0')) else ""),
    orEmpty chd.premium_amount,
    "", "", "", "", "", "", "",
    orEmpty meta.unb_recipient,
    "", "", "",
    pyOrS ifn "",
    orEmpty policy,
    pyStrOr chd.charge_type "CBS",
    "EORM" ]

/-- One back-fill loop: transform the row at each index in turn;
`rows[idx]` on an out-of-range index is Python's `IndexError`. -/
def rowFold (f : List String → List String) :
    List (List String) → List Nat → Except Unit (List (List String))
  | rows, [] => Except.ok rows
  | rows, i :: is =>
    match rows[i]? with
    | none => Except.error ()
    | some r => rowFold f (rows.set i (f r)) is

/-- The `UNH` branch: set the batch sequence, reset all per-message
context, open (or keep) the bucket for this batch key, clear the
per-message IFN map. -/
def unhStep (st : LGState) (fields : List String) : LGState :=
  let b := fields.headD ""
  { st with
    batch_seq := some b
    BGM_PYD := none, NAD_BO := none, NAD_IN := none, NAD_PA := none
    GIS := none, RFF_POL := none, POL := polEmpty, PDT := ("", "")
    CNT := []
    rows_by_message := setdA st.rows_by_message b []
    ifn_by_policy := [] }

/-- The `NAD` branch: route `fields[1]` by the `BO`/`IN`/`PA` qualifier
(`IN` is stripped of leading zeros). -/
def nadStep (st : LGState) (fields : List String) : LGState :=
  match fields with
  | qual :: val :: _ =>
    if qual = "BO" then { st with NAD_BO := some val }
    else if qual = "IN" then { st with NAD_IN := some (lstrip_zeros (some val)) }
    else if qual = "PA" then { st with NAD_PA := some val }
    else st
  | _ => st

/-- The `RFF` branch: a `POL` entry updates the current policy reference,
and an `IFN` entry is recorded under the (truthy) policy current after
that update. -/
def rffStep (st : LGState) (fields : List String) : LGState :=
  let refs := parse_rff_fields fields
  let rp :=
    match lookupA refs "POL" with
    | some v => some v
    | none => st.RFF_POL
  let ifnmap :=
    match lookupA refs "IFN" with
    | some iv =>
      match rp with
      | some p => if p ≠ "" then setA st.ifn_by_policy p iv else st.ifn_by_policy
      | none => st.ifn_by_policy
    | none => st.ifn_by_policy
  { st with RFF_POL := rp, ifn_by_policy := ifnmap }

/-- The `PDT` branch: store the (normalised) pair in context, then
back-fill columns 23-24 of the last row of the current bucket, if any. -/
def pdtStep (st : LGState) (fields : List String) : Except Unit LGState :=
  let p := parse_pdt_fields fields
  let st1 := { st with PDT := (p.1, pdtNorm p.2) }
  match (bucketOf st1).bind List.getLast? with
  | some i =>
    match rowFold (fun r => (r.set 23 (pyOrS st1.PDT.1 "")).set 24 (pyOrS st1.PDT.2 ""))
        st1.rows [i] with
    | Except.ok rows' => Except.ok { st1 with rows := rows' }
    | Except.error e => Except.error e
  | none => Except.ok st1

/-- The `CNT` branch: store the parsed map in context, then back-fill
columns 25-26 of every row of the current bucket. -/
def cntStep (st : LGState) (fields : List String) : Except Unit LGState :=
  let cnt := parse_cnt_fields fields
  let st1 := { st with CNT := cnt }
  let ctn := (lookupA cnt "CTN").getD ""
  let cam := (lookupA cnt "CAM").getD ""
  match rowFold (fun r => (r.set 25 ctn).set 26 cam) st1.rows ((bucketOf st1).getD []) with
  | Except.ok rows' => Except.ok { st1 with rows := rows' }
  | Except.error e => Except.error e

/-- The `CHD` branch: build the 37-column row from the current context
and append it; looking up the bucket of the current batch sequence is the
decoder's only `KeyError` (no `UNH` key seen yet). -/
def chdStep (meta : UnbMeta) (st : LGState) (fields : List String) : Except Unit LGState :=
  let chd := parse_chd_fields fields
  let basis := orEmpty st.POL.basis_of_sale
  let policy := st.RFF_POL
  let ifn := ifnFor st
  let row := mkChdRow meta st chd basis policy ifn
  match st.batch_seq with
  | none => Except.error ()
  | some b =>
    match lookupA st.rows_by_message b with
    | none => Except.error ()
    | some _ =>
      Except.ok
        { st with
          rows := st.rows ++ [row]
          rows_by_message := appendA st.rows_by_message b st.rows.length }

/-- The `UNT` branch: back-fill column 27 of every row of the current
bucket with the segment count, when the count field is non-empty. -/
def untStep (st : LGState) (fields : List String) : Except Unit LGState :=
  match fields with
  | f0 :: _ =>
    if f0 ≠ "" then
      match rowFold (fun r => r.set 27 f0) st.rows ((bucketOf st).getD []) with
      | Except.ok rows' => Except.ok { st with rows := rows' }
      | Except.error e => Except.error e
    else Except.ok st
  | [] => Except.ok st

/-- One dispatch step of the `for seg in segments` loop of `convert_lg`,
for an already tokenised segment; unknown tags are ignored. -/
def stepTag (meta : UnbMeta) (st : LGState) (tag : String) (fields : List String) :
    Except Unit LGState :=
  if tag = "UNH" then Except.ok (unhStep st fields)
  else if tag = "BGM" then Except.ok { st with BGM_PYD := bgmScan st.BGM_PYD fields }
  else if tag = "NAD" then Except.ok (nadStep st fields)
  else if tag = "GIS" then
    Except.ok
      (match fields with
       | g :: _ => { st with GIS := some g }
       | [] => st)
  else if tag = "RFF" then Except.ok (rffStep st fields)
  else if tag = "POL" then Except.ok { st with POL := parse_pol_fields fields }
  else if tag = "PDT" then pdtStep st fields
  else if tag = "CNT" then cntStep st fields
  else if tag = "CHD" then chdStep meta st fields
  else if tag = "UNT" then untStep st fields
  else Except.ok st

/-- The segment loop of `convert_lg`. -/
def runSegs (meta : UnbMeta) (st : LGState) : List String → Except Unit LGState
  | [] => Except.ok st
  | seg :: rest =>
    match stepTag meta st (tokenise seg).1 (tokenise seg).2 with
    | Except.ok st' => runSegs meta st' rest
    | Except.error e => Except.error e

/-- The decoder `convert_lg`: tokenize, extract the envelope, run the segment loop,
return the accumulated rows (the rows of the returned data frame). -/
def convert_lg (text : String) : Except Unit (List (List String)) :=
  match runSegs (unbMetaOf text) initState (parse_edi_segments text) with
  | Except.ok st => Except.ok st.rows
  | Except.error e => Except.error e

/-- Number of `CHD` segments in a tokenized segment stream. -/
def countCHD (segs : List String) : Nat :=
  (segs.filter (fun s => tagOf s == "CHD")).length

/-- Returns `true` when no `CHD` segment occurs before the first `UNH` segment. -/
def chdSafe : List String → Bool
  | [] => true
  | s :: rest =>
    if tagOf s == "UNH" then true
    else if tagOf s == "CHD" then false
    else chdSafe rest

/-- Whether an `Except` result is a success. -/
def okB {α : Type} : Except Unit α → Bool
  | Except.ok _ => true
  | Except.error _ => false

/-- Cell `k` of row `i`. -/
def getCell (rows : List (List String)) (i k : Nat) : Option String :=
  (rows[i]?).bind (fun r => r[k]?)

/-- Cell access through the decoder result. -/
def getCellE (e : Except Unit (List (List String))) (i k : Nat) : Option String :=
  match e with
  | Except.ok rows => getCell rows i k
  | Except.error _ => none

/-- Indices of the rows whose creation-time batch sequence (column 1)
equals `b`. -/
def msgIdxs (rows : List (List String)) (b : String) : List Nat :=
  (List.range rows.length).filter (fun j => getCell rows j 1 == some b)

/-- Indices of the rows whose batch sequence matches the current one. -/
def curIdxs (st : LGState) : List Nat :=
  match st.batch_seq with
  | some b => msgIdxs st.rows b
  | none => []

/-- The decoder state after running the given segments from the initial
state (initial state again if the run fails); used to build concrete
witnesses. -/
def stateAfter (meta : UnbMeta) (segs : List String) : LGState :=
  match runSegs meta initState segs with
  | Except.ok st => st
  | Except.error _ => initState

/-! ### Generic list lemmas -/

theorem lgGetSetSelf {α : Type} {l : List α} {i : Nat} {a : α} (h : i < l.length) :
    (l.set i a)[i]? = some a := by
  simp [List.getElem?_set_self', List.getElem?_eq_getElem h]

theorem lgSetId {α : Type} {l : List α} {i : Nat} {a : α} (h : l[i]? = some a) :
    l.set i a = l := by
  induction l generalizing i with
  | nil => simp at h
  | cons x xs ih =>
    cases i with
    | zero => simp at h; simp [List.set, h]
    | succ i => simp at h ⊢; exact ih h

theorem lgGetMem {α : Type} {l : List α} {i : Nat} {a : α} (h : l[i]? = some a) :
    a ∈ l := by
  induction l generalizing i with
  | nil => simp at h
  | cons x xs ih =>
    cases i with
    | zero => simp at h; simp [h]
    | succ i => simp at h; exact List.mem_cons_of_mem _ (ih h)

theorem lgGetLtLength {α : Type} {l : List α} {i : Nat} {a : α} (h : l[i]? = some a) :
    i < l.length := by
  by_contra hn
  rw [List.getElem?_eq_none (by omega)] at h
  exact Option.noConfusion h

theorem lgGetOfLt {α : Type} {l : List α} {i : Nat} (h : i < l.length) :
    ∃ a, l[i]? = some a := by
  cases hg : l[i]? with
  | none => exact absurd (List.getElem?_eq_none_iff.mp hg) (by omega)
  | some a => exact ⟨a, rfl⟩

theorem lgMemGetLast {α : Type} {l : List α} {a : α} (h : l.getLast? = some a) :
    a ∈ l := by
  induction l with
  | nil => simp at h
  | cons x xs ih =>
    cases xs with
    | nil => simp [List.getLast?] at h; simp [h]
    | cons y ys =>
      rw [List.getLast?_cons_cons] at h
      exact List.mem_cons_of_mem _ (ih h)

/-- The double cell write of the CNT/PDT back-fill is idempotent on a row. -/
theorem lgSet2Idem (r : List String) (k1 k2 : Nat) (v1 v2 : String) (h : k1 ≠ k2) :
    (((r.set k1 v1).set k2 v2).set k1 v1).set k2 v2 = (r.set k1 v1).set k2 v2 := by
  rw [List.set_comm _ _ _ h, List.set_set, List.set_comm _ _ _ (Ne.symm h), List.set_set]

/-! ### Lemmas about the back-fill loop `rowFold` -/

theorem rowFold_length (f : List String → List String) :
    ∀ (idxs : List Nat) (rows rows' : List (List String)),
    rowFold f rows idxs = Except.ok rows' → rows'.length = rows.length := by
  intro idxs
  induction idxs with
  | nil => intro rows rows' h; simp [rowFold] at h; simp [h]
  | cons i is ih =>
    intro rows rows' h
    simp only [rowFold] at h
    cases hg : rows[i]? with
    | none => rw [hg] at h; exact absurd h (by simp)
    | some r =>
      rw [hg] at h
      have := ih (rows.set i (f r)) rows' h
      simpa [List.length_set] using this

theorem rowFold_get_notMem (f : List String → List String) :
    ∀ (idxs : List Nat) (rows rows' : List (List String)),
    rowFold f rows idxs = Except.ok rows' → ∀ j, j ∉ idxs → rows'[j]? = rows[j]? := by
  intro idxs
  induction idxs with
  | nil => intro rows rows' h j _; simp [rowFold] at h; simp [h]
  | cons i is ih =>
    intro rows rows' h j hj
    simp only [rowFold] at h
    cases hg : rows[i]? with
    | none => rw [hg] at h; exact absurd h (by simp)
    | some r =>
      rw [hg] at h
      have h1 : j ≠ i := fun he => hj (he ▸ List.mem_cons_self i is)
      have h2 : j ∉ is := fun hm => hj (List.mem_cons_of_mem _ hm)
      rw [ih (rows.set i (f r)) rows' h j h2]
      exact List.getElem?_set_ne (Ne.symm h1)

theorem rowFold_get_mem (f : List String → List String) (hf : ∀ r, f (f r) = f r) :
    ∀ (idxs : List Nat) (rows rows' : List (List String)),
    rowFold f rows idxs = Except.ok rows' →
    ∀ j ∈ idxs, rows'[j]? = (rows[j]?).map f := by
  intro idxs
  induction idxs with
  | nil => intro rows rows' _ j hj; simp at hj
  | cons i is ih =>
    intro rows rows' h j hj
    simp only [rowFold] at h
    cases hg : rows[i]? with
    | none => rw [hg] at h; exact absurd h (by simp)
    | some r =>
      rw [hg] at h
      have hlt : i < rows.length := lgGetLtLength hg
      by_cases hji : j = i
      · subst hji
        by_cases hjs : j ∈ is
        · rw [ih _ _ h j hjs, lgGetSetSelf hlt]
          simp [hg, hf r]
        · rw [rowFold_get_notMem f is _ _ h j hjs, lgGetSetSelf hlt]
          simp [hg]
      · have hjs : j ∈ is := by
          rcases List.mem_cons.mp hj with h' | h'
          · exact absurd h' hji
          · exact h'
        rw [ih _ _ h j hjs, List.getElem?_set_ne (fun he => hji he.symm)]

theorem rowFold_idem (f : List String → List String) (hf : ∀ r, f (f r) = f r) :
    ∀ (idxs : List Nat) (rows rows' : List (List String)),
    rowFold f rows idxs = Except.ok rows' → rowFold f rows' idxs = Except.ok rows' := by
  intro idxs
  induction idxs with
  | nil => intro rows rows' h; simp [rowFold] at h ⊢
  | cons i is ih =>
    intro rows rows' h
    simp only [rowFold] at h
    cases hg : rows[i]? with
    | none => rw [hg] at h; exact absurd h (by simp)
    | some r =>
      rw [hg] at h
      have hlt : i < rows.length := lgGetLtLength hg
      have hget : rows'[i]? = some (f r) := by
        by_cases hi : i ∈ is
        · rw [rowFold_get_mem f hf is _ _ h i hi, lgGetSetSelf hlt]
          simp [hf r]
        · rw [rowFold_get_notMem f is _ _ h i hi]
          exact lgGetSetSelf hlt
      simp only [rowFold, hget]
      rw [hf r, lgSetId hget]
      exact ih _ _ h

theorem rowFold_ok (f : List String → List String) :
    ∀ (idxs : List Nat) (rows : List (List String)),
    (∀ i ∈ idxs, i < rows.length) → ∃ rows', rowFold f rows idxs = Except.ok rows' := by
  intro idxs
  induction idxs with
  | nil => intro rows _; exact ⟨rows, rfl⟩
  | cons i is ih =>
    intro rows hbound
    obtain ⟨r, hr⟩ := lgGetOfLt (hbound i (List.mem_cons_self i is))
    obtain ⟨rows', hrows'⟩ := ih (rows.set i (f r))
      (fun j hj => by rw [List.length_set]; exact hbound j (List.mem_cons_of_mem _ hj))
    exact ⟨rows', by simp only [rowFold, hr]; exact hrows'⟩

/-- Any row-wise property preserved by the transform survives a back-fill
loop. -/
theorem rowFold_pres (f : List String → List String) (P : List String → Prop)
    (hP : ∀ r, P r → P (f r)) :
    ∀ (idxs : List Nat) (rows rows' : List (List String)),
    rowFold f rows idxs = Except.ok rows' →
    (∀ r ∈ rows, P r) → ∀ r' ∈ rows', P r' := by
  intro idxs
  induction idxs with
  | nil => intro rows rows' h hall r' hr'; simp [rowFold] at h; subst h; exact hall r' hr'
  | cons i is ih =>
    intro rows rows' h hall r' hr'
    simp only [rowFold] at h
    cases hg : rows[i]? with
    | none => rw [hg] at h; exact absurd h (by simp)
    | some r =>
      rw [hg] at h
      refine ih _ _ h (fun r'' hr'' => ?_) r' hr'
      rcases List.mem_or_eq_of_mem_set hr'' with hmem | he
      · exact hall r'' hmem
      · exact he ▸ hP r (hall r (lgGetMem hg))

/-! ### Lemmas about the association-list dictionaries -/

theorem lookupA_append_single {α : Type} (m : List (String × α)) (k : String) (v : α)
    (b : String) :
    lookupA (m ++ [(k, v)]) b =
      match lookupA m b with
      | some w => some w
      | none => if k = b then some v else none := by
  induction m with
  | nil => simp [lookupA]
  | cons p m ih =>
    by_cases h : p.1 = b
    · simp [lookupA, h]
    · simp only [List.cons_append, lookupA, h, if_neg h]
      exact ih

theorem lookupA_setdA_getD (m : List (String × List Nat)) (k b : String) :
    (lookupA (setdA m k []) b).getD [] = (lookupA m b).getD [] := by
  unfold setdA
  cases hk : lookupA m k with
  | some w => simp [hk]
  | none =>
    simp only [Option.isSome_none, Bool.false_eq_true, if_false]
    rw [lookupA_append_single]
    cases hb : lookupA m b with
    | some w => simp
    | none =>
      by_cases he : k = b
      · subst he
        simp
      · simp [he]

theorem lookupA_setdA_isSome {α : Type} (m : List (String × α)) (k : String) (v : α) :
    (lookupA (setdA m k v) k).isSome = true := by
  unfold setdA
  cases hk : lookupA m k with
  | some w => simp [hk]
  | none =>
    simp only [Option.isSome_none, Bool.false_eq_true, if_false]
    rw [lookupA_append_single, hk]
    simp

theorem lookupA_appendA (m : List (String × List Nat)) (k : String) (i : Nat) :
    ∀ b, lookupA (appendA m k i) b =
      if b = k then (lookupA m k).map (fun l => l ++ [i]) else lookupA m b := by
  induction m with
  | nil =>
    intro b
    by_cases h : b = k <;> simp [appendA, lookupA, h]
  | cons p m ih =>
    intro b
    obtain ⟨k', l⟩ := p
    by_cases h1 : k' = k
    · subst h1
      by_cases h2 : k' = b
      · subst h2
        simp [appendA, lookupA]
      · have h2' : ¬b = k' := fun he => h2 he.symm
        simp [appendA, lookupA, h2, h2']
    · by_cases h2 : k' = b
      · subst h2
        have h1' : ¬k' = k := h1
        simp [appendA, lookupA, h1', lookupA]
      · simp [appendA, lookupA, h1, h2, ih b]

/-! ### Lemmas about `msgIdxs` -/

theorem msgIdxs_congr (rows rows' : List (List String)) (b : String)
    (hlen : rows'.length = rows.length)
    (hc : ∀ j, getCell rows' j 1 = getCell rows j 1) :
    msgIdxs rows' b = msgIdxs rows b := by
  unfold msgIdxs
  rw [hlen]
  exact List.filter_congr (fun j _ => by rw [hc])

theorem msgIdxs_append (rows : List (List String)) (row : List String) (b c : String)
    (hrow : row[1]? = some c) :
    msgIdxs (rows ++ [row]) b =
      if c == b then msgIdxs rows b ++ [rows.length] else msgIdxs rows b := by
  unfold msgIdxs
  have hlen : (rows ++ [row]).length = rows.length + 1 := by simp
  rw [hlen, List.range_succ, List.filter_append]
  have h1 : List.filter (fun j => getCell (rows ++ [row]) j 1 == some b)
      (List.range rows.length) =
      List.filter (fun j => getCell rows j 1 == some b) (List.range rows.length) := by
    refine List.filter_congr (fun j hj => ?_)
    have hjlt : j < rows.length := List.mem_range.mp hj
    unfold getCell
    rw [List.getElem?_append, if_pos hjlt]
  have h2 : getCell (rows ++ [row]) rows.length 1 = some c := by
    unfold getCell
    rw [List.getElem?_concat_length]
    simpa using hrow
  rw [h1]
  by_cases hcb : c = b
  · subst hcb
    simp [List.filter_cons, h2]
  · have hne : ¬(getCell (rows ++ [row]) rows.length 1 == some b) = true := by
      rw [h2]
      simp [hcb]
    simp [List.filter_cons, hne, hcb]

theorem msgIdxs_lt (rows : List (List String)) (b : String) :
    ∀ j ∈ msgIdxs rows b, j < rows.length := by
  intro j hj
  unfold msgIdxs at hj
  exact List.mem_range.mp (List.mem_of_mem_filter hj)

/-! ### The decoder invariant -/

/-- Invariant of the decoder state: each batch bucket holds exactly the
indices of the rows created under that batch-sequence value, the current
batch sequence (when set) has a bucket, and every row has 37 columns. -/
def INV (st : LGState) : Prop :=
  (∀ b, (lookupA st.rows_by_message b).getD [] = msgIdxs st.rows b) ∧
  (∀ b, st.batch_seq = some b → (lookupA st.rows_by_message b).isSome = true) ∧
  (∀ r ∈ st.rows, r.length = 37)

theorem INV_init : INV initState := by
  refine ⟨fun b => ?_, fun b h => by simp [initState] at h, fun r hr => by simp [initState] at hr⟩
  simp [initState, lookupA, msgIdxs]

/-! ### Inversion lemmas for the fallible branches -/

theorem INV_of_same (st st' : LGState) (hI : INV st) (hr : st'.rows = st.rows)
    (hm : st'.rows_by_message = st.rows_by_message) (hb : st'.batch_seq = st.batch_seq) :
    INV st' := by
  refine ⟨fun b => ?_, fun b h => ?_, fun r hrm => ?_⟩
  · rw [hr, hm]; exact hI.1 b
  · rw [hm]; exact hI.2.1 b (hb ▸ h)
  · exact hI.2.2 r (hr ▸ hrm)

theorem bucketD_eq (st : LGState) (hI : INV st) : (bucketOf st).getD [] = curIdxs st := by
  unfold bucketOf curIdxs
  cases hb : st.batch_seq with
  | none => rfl
  | some b => exact hI.1 b

theorem bucketLast_eq (st : LGState) (hI : INV st) :
    (bucketOf st).bind List.getLast? = (curIdxs st).getLast? := by
  unfold bucketOf curIdxs
  cases hb : st.batch_seq with
  | none => rfl
  | some b =>
    dsimp only
    have h1 := hI.1 b
    cases hl : lookupA st.rows_by_message b with
    | none =>
      rw [hl] at h1
      simp at h1
      rw [h1]
      rfl
    | some l =>
      rw [hl] at h1
      simp at h1
      rw [← h1]
      rfl

theorem pdtStep_inv (st : LGState) (fields : List String) (st' : LGState)
    (h : pdtStep st fields = Except.ok st') :
    (∃ i rows',
       (bucketOf st).bind List.getLast? = some i ∧
       rowFold
         (fun r => (r.set 23 (pyOrS (parse_pdt_fields fields).1 ""))
           |>.set 24 (pyOrS (pdtNorm (parse_pdt_fields fields).2) ""))
         st.rows [i] = Except.ok rows' ∧
       st' = { st with
               PDT := ((parse_pdt_fields fields).1, pdtNorm (parse_pdt_fields fields).2)
               rows := rows' }) ∨
    ((bucketOf st).bind List.getLast? = none ∧
     st' = { st with
             PDT := ((parse_pdt_fields fields).1, pdtNorm (parse_pdt_fields fields).2) }) := by
  simp only [pdtStep] at h
  split at h
  case h_1 i heq =>
    split at h
    case h_1 rows' hf =>
      cases h
      exact Or.inl ⟨i, rows', heq, hf, rfl⟩
    case h_2 e hf => exact Except.noConfusion h
  case h_2 heq =>
    cases h
    exact Or.inr ⟨heq, rfl⟩

theorem cntStep_inv (st : LGState) (fields : List String) (st' : LGState)
    (h : cntStep st fields = Except.ok st') :
    ∃ rows',
      rowFold
        (fun r => (r.set 25 ((lookupA (parse_cnt_fields fields) "CTN").getD ""))
          |>.set 26 ((lookupA (parse_cnt_fields fields) "CAM").getD ""))
        st.rows ((bucketOf st).getD []) = Except.ok rows' ∧
      st' = { st with CNT := parse_cnt_fields fields, rows := rows' } := by
  simp only [cntStep] at h
  split at h
  case h_1 rows' hf =>
    cases h
    exact ⟨rows', hf, rfl⟩
  case h_2 e hf => exact Except.noConfusion h

theorem untStep_inv (st : LGState) (fields : List String) (st' : LGState)
    (h : untStep st fields = Except.ok st') :
    (∃ f0 rest rows', fields = f0 :: rest ∧ f0 ≠ "" ∧
       rowFold (fun r => r.set 27 f0) st.rows ((bucketOf st).getD []) = Except.ok rows' ∧
       st' = { st with rows := rows' }) ∨
    (fields.headD "" = "" ∧ st' = st) := by
  unfold untStep at h
  cases fields with
  | nil =>
    cases h
    exact Or.inr ⟨rfl, rfl⟩
  | cons f0 rest =>
    dsimp only at h
    by_cases hf0 : f0 = ""
    · subst hf0
      simp only [ne_eq, not_true_eq_false, if_false] at h
      cases h
      exact Or.inr ⟨rfl, rfl⟩
    · rw [if_pos hf0] at h
      split at h
      next rows' hf =>
        cases h
        exact Or.inl ⟨f0, rest, rows', rfl, hf0, hf, rfl⟩
      next e hf => exact Except.noConfusion h

theorem chdStep_inv (meta : UnbMeta) (st : LGState) (fields : List String) (st' : LGState)
    (h : chdStep meta st fields = Except.ok st') :
    ∃ b l, st.batch_seq = some b ∧ lookupA st.rows_by_message b = some l ∧
      st' = { st with
              rows := st.rows ++
                [mkChdRow meta st (parse_chd_fields fields) (orEmpty st.POL.basis_of_sale)
                  st.RFF_POL (ifnFor st)]
              rows_by_message := appendA st.rows_by_message b st.rows.length } := by
  simp only [chdStep] at h
  split at h
  case h_1 hb => exact Except.noConfusion h
  case h_2 b hb =>
    split at h
    case h_1 hl => exact Except.noConfusion h
    case h_2 l hl =>
      cases h
      exact ⟨b, l, hb, hl, rfl⟩

/-! ### Row-shape facts about `mkChdRow` -/

theorem mkChdRow_length (meta : UnbMeta) (st : LGState) (chd : ChdData) (basis : String)
    (policy : Option String) (ifn : String) :
    (mkChdRow meta st chd basis policy ifn).length = 37 := rfl

theorem mkChdRow_get1 (meta : UnbMeta) (st : LGState) (chd : ChdData) (basis : String)
    (policy : Option String) (ifn : String) :
    (mkChdRow meta st chd basis policy ifn)[1]? = some (orEmpty st.batch_seq) := rfl

theorem mkChdRow_get22 (meta : UnbMeta) (st : LGState) (chd : ChdData) (basis : String)
    (policy : Option String) (ifn : String) :
    (mkChdRow meta st chd basis policy ifn)[22]? = some "" := rfl

theorem mkChdRow_get18 (meta : UnbMeta) (st : LGState) (chd : ChdData) (basis : String)
    (policy : Option String) (ifn : String) :
    (mkChdRow meta st chd basis policy ifn)[18]? = some (pyStrOr chd.chd_cur_qual "N") := rfl

theorem mkChdRow_get33 (meta : UnbMeta) (st : LGState) (chd : ChdData) (basis : String)
    (policy : Option String) (ifn : String) :
    (mkChdRow meta st chd basis policy ifn)[33]? = some (pyOrS ifn "") := rfl

/-- A back-fill loop never changes a column its row transform leaves
alone. -/
theorem rowFold_cell (f : List String → List String) (k : Nat)
    (hk : ∀ r, (f r)[k]? = r[k]?) :
    ∀ (idxs : List Nat) (rows rows' : List (List String)),
    rowFold f rows idxs = Except.ok rows' →
    ∀ j, getCell rows' j k = getCell rows j k := by
  intro idxs
  induction idxs with
  | nil => intro rows rows' h j; simp [rowFold] at h; simp [h]
  | cons i is ih =>
    intro rows rows' h j
    simp only [rowFold] at h
    cases hg : rows[i]? with
    | none => rw [hg] at h; exact Except.noConfusion h
    | some r =>
      rw [hg] at h
      rw [ih _ _ h j]
      unfold getCell
      by_cases hji : j = i
      · subst hji
        rw [lgGetSetSelf (lgGetLtLength hg), hg]
        simp [hk r]
      · rw [List.getElem?_set_ne (fun he => hji he.symm)]

/-! ### Preservation of the decoder invariant -/

theorem stepINV (meta : UnbMeta) (st : LGState) (tag : String) (fields : List String)
    (st' : LGState) (hI : INV st) (h : stepTag meta st tag fields = Except.ok st') :
    INV st' := by
  unfold stepTag at h
  by_cases h1 : tag = "UNH"
  · rw [if_pos h1] at h
    cases h
    refine ⟨fun b' => ?_, fun b' hb' => ?_, fun r hr => hI.2.2 r hr⟩
    · show (lookupA (setdA st.rows_by_message (fields.headD "") []) b').getD [] =
        msgIdxs st.rows b'
      rw [lookupA_setdA_getD]
      exact hI.1 b'
    · have hb'' : fields.headD "" = b' := by
        simpa [unhStep] using hb'
      show (lookupA (setdA st.rows_by_message (fields.headD "") []) b').isSome = true
      rw [hb'']
      exact lookupA_setdA_isSome _ _ _
  · rw [if_neg h1] at h
    by_cases h2 : tag = "BGM"
    · rw [if_pos h2] at h
      cases h
      exact INV_of_same _ st hI rfl rfl rfl
    · rw [if_neg h2] at h
      by_cases h3 : tag = "NAD"
      · rw [if_pos h3] at h
        cases h
        unfold nadStep
        split
        · split
          · exact INV_of_same _ st hI rfl rfl rfl
          · split
            · exact INV_of_same _ st hI rfl rfl rfl
            · split
              · exact INV_of_same _ st hI rfl rfl rfl
              · exact hI
        · exact hI
      · rw [if_neg h3] at h
        by_cases h4 : tag = "GIS"
        · rw [if_pos h4] at h
          cases h
          split
          · exact INV_of_same _ st hI rfl rfl rfl
          · exact hI
        · rw [if_neg h4] at h
          by_cases h5 : tag = "RFF"
          · rw [if_pos h5] at h
            cases h
            exact INV_of_same _ st hI rfl rfl rfl
          · rw [if_neg h5] at h
            by_cases h6 : tag = "POL"
            · rw [if_pos h6] at h
              cases h
              exact INV_of_same _ st hI rfl rfl rfl
            · rw [if_neg h6] at h
              by_cases h7 : tag = "PDT"
              · rw [if_pos h7] at h
                rcases pdtStep_inv st fields st' h with
                  ⟨i, rows', _, hf, rfl⟩ | ⟨_, rfl⟩
                · have hlen := rowFold_length _ _ _ _ hf
                  have hcell := rowFold_cell _ 1
                    (fun r => by
                      rw [List.getElem?_set_ne (by omega), List.getElem?_set_ne (by omega)])
                    _ _ _ hf
                  refine ⟨fun b' => ?_, fun b' hb' => hI.2.1 b' hb',
                    fun r hr => ?_⟩
                  · show (lookupA st.rows_by_message b').getD [] = msgIdxs rows' b'
                    rw [msgIdxs_congr st.rows rows' b' hlen hcell]
                    exact hI.1 b'
                  · exact rowFold_pres _ (fun r => r.length = 37)
                      (fun r hp => by simp [List.length_set, hp]) _ _ _ hf hI.2.2 r hr
                · exact INV_of_same _ st hI rfl rfl rfl
              · rw [if_neg h7] at h
                by_cases h8 : tag = "CNT"
                · rw [if_pos h8] at h
                  rcases cntStep_inv st fields st' h with ⟨rows', hf, rfl⟩
                  have hlen := rowFold_length _ _ _ _ hf
                  have hcell := rowFold_cell _ 1
                    (fun r => by
                      rw [List.getElem?_set_ne (by omega), List.getElem?_set_ne (by omega)])
                    _ _ _ hf
                  refine ⟨fun b' => ?_, fun b' hb' => hI.2.1 b' hb', fun r hr => ?_⟩
                  · show (lookupA st.rows_by_message b').getD [] = msgIdxs rows' b'
                    rw [msgIdxs_congr st.rows rows' b' hlen hcell]
                    exact hI.1 b'
                  · exact rowFold_pres _ (fun r => r.length = 37)
                      (fun r hp => by simp [List.length_set, hp]) _ _ _ hf hI.2.2 r hr
                · rw [if_neg h8] at h
                  by_cases h9 : tag = "CHD"
                  · rw [if_pos h9] at h
                    rcases chdStep_inv meta st fields st' h with ⟨b, l, hb, hl, rfl⟩
                    have hileq := hI.1 b
                    rw [hl] at hileq
                    simp at hileq
                    have hrow1 : (mkChdRow meta st (parse_chd_fields fields)
                        (orEmpty st.POL.basis_of_sale) st.RFF_POL (ifnFor st))[1]? =
                        some b := by
                      rw [mkChdRow_get1, hb]
                      rfl
                    refine ⟨fun b' => ?_, fun b' hb' => ?_, fun r hr => ?_⟩
                    · show (lookupA (appendA st.rows_by_message b st.rows.length) b').getD [] =
                        msgIdxs (st.rows ++ [_]) b'
                      rw [lookupA_appendA, msgIdxs_append _ _ b' b hrow1]
                      by_cases hbb : b' = b
                      · subst hbb
                        rw [if_pos rfl, hl]
                        simp [hileq]
                      · rw [if_neg hbb]
                        have : (b == b') = false := by
                          simp only [beq_eq_false_iff_ne]
                          exact fun he => hbb he.symm
                        rw [this]
                        simp
                        exact hI.1 b'
                    · have hbb : b' = b := by
                        rw [hb] at hb'
                        exact (Option.some.injEq _ _ ▸ hb').symm
                      subst hbb
                      rw [lookupA_appendA, if_pos rfl, hl]
                      simp
                    · rcases List.mem_append.mp hr with hmem | hmem
                      · exact hI.2.2 r hmem
                      · rw [List.mem_singleton.mp hmem]
                        exact mkChdRow_length _ _ _ _ _ _
                  · rw [if_neg h9] at h
                    by_cases h10 : tag = "UNT"
                    · rw [if_pos h10] at h
                      rcases untStep_inv st fields st' h with
                        ⟨f0, rest, rows', _, _, hf, rfl⟩ | ⟨_, rfl⟩
                      · have hlen := rowFold_length _ _ _ _ hf
                        have hcell := rowFold_cell _ 1
                          (fun r => by rw [List.getElem?_set_ne (by omega)]) _ _ _ hf
                        refine ⟨fun b' => ?_, fun b' hb' => hI.2.1 b' hb', fun r hr => ?_⟩
                        · show (lookupA st.rows_by_message b').getD [] = msgIdxs rows' b'
                          rw [msgIdxs_congr st.rows rows' b' hlen hcell]
                          exact hI.1 b'
                        · exact rowFold_pres _ (fun r => r.length = 37)
                            (fun r hp => by simp [List.length_set, hp]) _ _ _ hf hI.2.2 r hr
                      · exact hI
                    · rw [if_neg h10] at h
                      cases h
                      exact hI

/-- Every branch except `UNH` leaves the batch sequence unchanged. -/
theorem step_batch (meta : UnbMeta) (st : LGState) (tag : String) (fields : List String)
    (st' : LGState) (ht : tag ≠ "UNH") (h : stepTag meta st tag fields = Except.ok st') :
    st'.batch_seq = st.batch_seq := by
  unfold stepTag at h
  rw [if_neg ht] at h
  by_cases h2 : tag = "BGM"
  · rw [if_pos h2] at h
    cases h
    rfl
  · rw [if_neg h2] at h
    by_cases h3 : tag = "NAD"
    · rw [if_pos h3] at h
      cases h
      unfold nadStep
      repeat' split
      all_goals rfl
    · rw [if_neg h3] at h
      by_cases h4 : tag = "GIS"
      · rw [if_pos h4] at h
        cases h
        split
        all_goals rfl
      · rw [if_neg h4] at h
        by_cases h5 : tag = "RFF"
        · rw [if_pos h5] at h
          cases h
          rfl
        · rw [if_neg h5] at h
          by_cases h6 : tag = "POL"
          · rw [if_pos h6] at h
            cases h
            rfl
          · rw [if_neg h6] at h
            by_cases h7 : tag = "PDT"
            · rw [if_pos h7] at h
              rcases pdtStep_inv st fields st' h with ⟨i, rows', _, _, rfl⟩ | ⟨_, rfl⟩ <;> rfl
            · rw [if_neg h7] at h
              by_cases h8 : tag = "CNT"
              · rw [if_pos h8] at h
                rcases cntStep_inv st fields st' h with ⟨rows', _, rfl⟩
                rfl
              · rw [if_neg h8] at h
                by_cases h9 : tag = "CHD"
                · rw [if_pos h9] at h
                  rcases chdStep_inv meta st fields st' h with ⟨b, l, _, _, rfl⟩
                  rfl
                · rw [if_neg h9] at h
                  by_cases h10 : tag = "UNT"
                  · rw [if_pos h10] at h
                    rcases untStep_inv st fields st' h with
                      ⟨f0, rest, rows', _, _, _, rfl⟩ | ⟨_, rfl⟩ <;> rfl
                  · rw [if_neg h10] at h
                    cases h
                    rfl

/-- A `CHD` before any `UNH` is the decoder's `KeyError`. -/
theorem step_chd_none_err (meta : UnbMeta) (st : LGState) (fields : List String)
    (hb : st.batch_seq = none) :
    stepTag meta st "CHD" fields = Except.error () := by
  unfold stepTag
  rw [if_neg (by decide), if_neg (by decide), if_neg (by decide), if_neg (by decide),
    if_neg (by decide), if_neg (by decide), if_neg (by decide), if_neg (by decide),
    if_pos rfl]
  simp only [chdStep, hb]

/-- Under the invariant, the only failing step is a `CHD` with no batch
sequence (no preceding `UNH`). -/
theorem step_err (meta : UnbMeta) (st : LGState) (tag : String) (fields : List String)
    (hI : INV st) (h : stepTag meta st tag fields = Except.error ()) :
    tag = "CHD" ∧ st.batch_seq = none := by
  unfold stepTag at h
  by_cases h1 : tag = "UNH"
  · rw [if_pos h1] at h
    exact Except.noConfusion h
  · rw [if_neg h1] at h
    by_cases h2 : tag = "BGM"
    · rw [if_pos h2] at h
      exact Except.noConfusion h
    · rw [if_neg h2] at h
      by_cases h3 : tag = "NAD"
      · rw [if_pos h3] at h
        exact Except.noConfusion h
      · rw [if_neg h3] at h
        by_cases h4 : tag = "GIS"
        · rw [if_pos h4] at h
          exact Except.noConfusion h
        · rw [if_neg h4] at h
          by_cases h5 : tag = "RFF"
          · rw [if_pos h5] at h
            exact Except.noConfusion h
          · rw [if_neg h5] at h
            by_cases h6 : tag = "POL"
            · rw [if_pos h6] at h
              exact Except.noConfusion h
            · rw [if_neg h6] at h
              by_cases h7 : tag = "PDT"
              · rw [if_pos h7] at h
                exfalso
                simp only [pdtStep] at h
                split at h
                next i heq =>
                  have heq' : (bucketOf st).bind List.getLast? = some i := heq
                  rw [bucketLast_eq st hI] at heq'
                  have hmem := lgMemGetLast heq'
                  have hlt : i < st.rows.length := by
                    unfold curIdxs at hmem
                    cases hbs : st.batch_seq with
                    | none => rw [hbs] at hmem; simp at hmem
                    | some b =>
                      rw [hbs] at hmem
                      exact msgIdxs_lt st.rows b i hmem
                  obtain ⟨rows', hok⟩ := rowFold_ok _ [i] st.rows
                    (fun x hx => by rw [List.mem_singleton.mp hx]; exact hlt)
                  rw [hok] at h
                  exact Except.noConfusion h
                next heq => exact Except.noConfusion h
              · rw [if_neg h7] at h
                by_cases h8 : tag = "CNT"
                · rw [if_pos h8] at h
                  exfalso
                  simp only [cntStep] at h
                  split at h
                  next rows' hok => exact Except.noConfusion h
                  next e hf =>
                    have hf' : rowFold
                        (fun r => (r.set 25 ((lookupA (parse_cnt_fields fields) "CTN").getD ""))
                          |>.set 26 ((lookupA (parse_cnt_fields fields) "CAM").getD ""))
                        st.rows ((bucketOf st).getD []) = Except.error e := hf
                    rw [bucketD_eq st hI] at hf'
                    obtain ⟨rows', hok⟩ := rowFold_ok _ (curIdxs st) st.rows
                      (fun x hx => by
                        unfold curIdxs at hx
                        cases hbs : st.batch_seq with
                        | none => rw [hbs] at hx; simp at hx
                        | some b =>
                          rw [hbs] at hx
                          exact msgIdxs_lt st.rows b x hx)
                    rw [hok] at hf'
                    exact Except.noConfusion hf'
                · rw [if_neg h8] at h
                  by_cases h9 : tag = "CHD"
                  · refine ⟨h9, ?_⟩
                    rw [if_pos h9] at h
                    simp only [chdStep] at h
                    split at h
                    next hb => exact hb
                    next b hb =>
                      split at h
                      next hl =>
                        exfalso
                        have := hI.2.1 b hb
                        rw [hl] at this
                        simp at this
                      next l hl => exact Except.noConfusion h
                  · rw [if_neg h9] at h
                    by_cases h10 : tag = "UNT"
                    · rw [if_pos h10] at h
                      exfalso
                      unfold untStep at h
                      cases fields with
                      | nil => exact Except.noConfusion h
                      | cons f0 rest =>
                        dsimp only at h
                        by_cases hf0 : f0 = ""
                        · subst hf0
                          simp only [ne_eq, not_true_eq_false, if_false] at h
                          exact Except.noConfusion h
                        · rw [if_pos hf0] at h
                          split at h
                          next rows' hok => exact Except.noConfusion h
                          next e hf =>
                            have hf' : rowFold (fun r => r.set 27 f0) st.rows
                                ((bucketOf st).getD []) = Except.error e := hf
                            rw [bucketD_eq st hI] at hf'
                            obtain ⟨rows', hok⟩ := rowFold_ok _ (curIdxs st) st.rows
                              (fun x hx => by
                                unfold curIdxs at hx
                                cases hbs : st.batch_seq with
                                | none => rw [hbs] at hx; simp at hx
                                | some b =>
                                  rw [hbs] at hx
                                  exact msgIdxs_lt st.rows b x hx)
                            rw [hok] at hf'
                            exact Except.noConfusion hf'
                    · rw [if_neg h10] at h
                      exact Except.noConfusion h

/-- The invariant is preserved along any successful run. -/
theorem runSegs_INV (meta : UnbMeta) :
    ∀ (segs : List String) (st st' : LGState), INV st →
    runSegs meta st segs = Except.ok st' → INV st' := by
  intro segs
  induction segs with
  | nil =>
    intro st st' hI h
    simp [runSegs] at h
    exact h ▸ hI
  | cons s rest ih =>
    intro st st' hI h
    simp only [runSegs] at h
    cases hs : stepTag meta st (tokenise s).1 (tokenise s).2 with
    | ok st1 =>
      rw [hs] at h
      exact ih st1 st' (stepINV meta st (tokenise s).1 (tokenise s).2 st1 hI hs) h
    | error e =>
      rw [hs] at h
      exact Except.noConfusion h

/-- When every `CHD` is preceded by some `UNH` (vacuously when a batch is
already open), the run succeeds. -/
theorem runSegs_ok (meta : UnbMeta) :
    ∀ (segs : List String) (st : LGState), INV st →
    (st.batch_seq = none → chdSafe segs = true) →
    ∃ st', runSegs meta st segs = Except.ok st' := by
  intro segs
  induction segs with
  | nil => intro st _ _; exact ⟨st, rfl⟩
  | cons s rest ih =>
    intro st hI hcond
    cases hs : stepTag meta st (tokenise s).1 (tokenise s).2 with
    | error e =>
      exfalso
      cases e
      have herr := step_err meta st (tokenise s).1 (tokenise s).2 hI hs
      have hsafe := hcond herr.2
      unfold chdSafe at hsafe
      rw [show tagOf s = (tokenise s).1 from rfl] at hsafe
      rw [herr.1] at hsafe
      simp at hsafe
    | ok st1 =>
      have hcond1 : st1.batch_seq = none → chdSafe rest = true := by
        intro hb1
        by_cases hU : (tokenise s).1 = "UNH"
        · exfalso
          unfold stepTag at hs
          rw [if_pos hU] at hs
          cases hs
          simp [unhStep] at hb1
        · have hb0 : st.batch_seq = none := by
            rw [← step_batch meta st _ _ st1 hU hs]
            exact hb1
          have hsafe := hcond hb0
          by_cases hC : (tokenise s).1 = "CHD"
          · exfalso
            rw [hC] at hs
            rw [step_chd_none_err meta st (tokenise s).2 hb0] at hs
            exact Except.noConfusion hs
          · unfold chdSafe at hsafe
            rw [show tagOf s = (tokenise s).1 from rfl] at hsafe
            rw [if_neg (by simpa using hU), if_neg (by simpa using hC)] at hsafe
            exact hsafe
      obtain ⟨st', hrun⟩ := ih st1 (stepINV meta st _ _ st1 hI hs) hcond1
      refine ⟨st', ?_⟩
      simp only [runSegs, hs]
      exact hrun

/-- When some `CHD` precedes the first `UNH`, the run fails with the
`KeyError`. -/
theorem runSegs_err (meta : UnbMeta) :
    ∀ (segs : List String) (st : LGState), INV st → st.batch_seq = none →
    chdSafe segs = false → runSegs meta st segs = Except.error () := by
  intro segs
  induction segs with
  | nil => intro st _ _ hfalse; exact absurd hfalse (by simp [chdSafe])
  | cons s rest ih =>
    intro st hI hb hfalse
    unfold chdSafe at hfalse
    rw [show tagOf s = (tokenise s).1 from rfl] at hfalse
    by_cases hU : (tokenise s).1 = "UNH"
    · rw [if_pos (by simpa using hU)] at hfalse
      exact absurd hfalse (by simp)
    · rw [if_neg (by simpa using hU)] at hfalse
      by_cases hC : (tokenise s).1 = "CHD"
      · simp only [runSegs]
        rw [hC, step_chd_none_err meta st (tokenise s).2 hb]
      · rw [if_neg (by simpa using hC)] at hfalse
        simp only [runSegs]
        cases hs : stepTag meta st (tokenise s).1 (tokenise s).2 with
        | error e => cases e; rfl
        | ok st1 =>
          have hb1 : st1.batch_seq = none := by
            rw [step_batch meta st _ _ st1 hU hs]
            exact hb
          exact ih st1 (stepINV meta st _ _ st1 hI hs) hb1 hfalse

/-- Each step appends exactly one row on `CHD` and none otherwise. -/
theorem step_len (meta : UnbMeta) (st : LGState) (tag : String) (fields : List String)
    (st' : LGState) (h : stepTag meta st tag fields = Except.ok st') :
    st'.rows.length = st.rows.length + (if tag = "CHD" then 1 else 0) := by
  unfold stepTag at h
  by_cases h1 : tag = "UNH"
  · subst h1
    rw [if_pos rfl] at h
    cases h
    rw [if_neg (by decide)]
    rfl
  · rw [if_neg h1] at h
    by_cases h2 : tag = "BGM"
    · subst h2
      rw [if_pos rfl] at h
      cases h
      rw [if_neg (by decide)]
      rfl
    · rw [if_neg h2] at h
      by_cases h3 : tag = "NAD"
      · subst h3
        rw [if_pos rfl] at h
        cases h
        rw [if_neg (by decide)]
        unfold nadStep
        repeat' split
        all_goals rfl
      · rw [if_neg h3] at h
        by_cases h4 : tag = "GIS"
        · subst h4
          rw [if_pos rfl] at h
          cases h
          rw [if_neg (by decide)]
          split
          all_goals rfl
        · rw [if_neg h4] at h
          by_cases h5 : tag = "RFF"
          · subst h5
            rw [if_pos rfl] at h
            cases h
            rw [if_neg (by decide)]
            rfl
          · rw [if_neg h5] at h
            by_cases h6 : tag = "POL"
            · subst h6
              rw [if_pos rfl] at h
              cases h
              rw [if_neg (by decide)]
              rfl
            · rw [if_neg h6] at h
              by_cases h7 : tag = "PDT"
              · subst h7
                rw [if_pos rfl] at h
                rw [if_neg (by decide)]
                rcases pdtStep_inv st fields st' h with ⟨i, rows', _, hf, rfl⟩ | ⟨_, rfl⟩
                · exact rowFold_length _ _ _ _ hf
                · rfl
              · rw [if_neg h7] at h
                by_cases h8 : tag = "CNT"
                · subst h8
                  rw [if_pos rfl] at h
                  rw [if_neg (by decide)]
                  rcases cntStep_inv st fields st' h with ⟨rows', hf, rfl⟩
                  exact rowFold_length _ _ _ _ hf
                · rw [if_neg h8] at h
                  by_cases h9 : tag = "CHD"
                  · subst h9
                    rw [if_pos rfl] at h
                    rw [if_pos rfl]
                    rcases chdStep_inv meta st fields st' h with ⟨b, l, _, _, rfl⟩
                    simp
                  · rw [if_neg h9] at h
                    by_cases h10 : tag = "UNT"
                    · subst h10
                      rw [if_pos rfl] at h
                      rw [if_neg (by decide)]
                      rcases untStep_inv st fields st' h with
                        ⟨f0, rest, rows', _, _, hf, rfl⟩ | ⟨_, rfl⟩
                      · exact rowFold_length _ _ _ _ hf
                      · rfl
                    · rw [if_neg h10] at h
                      cases h
                      rw [if_neg h9]
                      rfl

theorem countCHD_cons (s : String) (rest : List String) :
    countCHD (s :: rest) = (if tagOf s = "CHD" then 1 else 0) + countCHD rest := by
  unfold countCHD
  rw [List.filter_cons]
  by_cases hc : tagOf s = "CHD"
  · simp [hc, Nat.add_comm]
  · simp [hc]

/-- The run appends exactly one row per `CHD` segment. -/
theorem runSegs_len (meta : UnbMeta) :
    ∀ (segs : List String) (st st' : LGState),
    runSegs meta st segs = Except.ok st' →
    st'.rows.length = st.rows.length + countCHD segs := by
  intro segs
  induction segs with
  | nil =>
    intro st st' h
    simp [runSegs] at h
    simp [← h, countCHD]
  | cons s rest ih =>
    intro st st' h
    simp only [runSegs] at h
    cases hs : stepTag meta st (tokenise s).1 (tokenise s).2 with
    | error e =>
      rw [hs] at h
      exact Except.noConfusion h
    | ok st1 =>
      rw [hs] at h
      have hlen1 := step_len meta st _ _ st1 hs
      have hlen2 := ih st1 st' h
      rw [countCHD_cons]
      rw [show tagOf s = (tokenise s).1 from rfl]
      omega

/-- Column 22 (premium currency) of every row is blank, and stays blank
through every step. -/
theorem step_f22 (meta : UnbMeta) (st : LGState) (tag : String) (fields : List String)
    (st' : LGState) (h : stepTag meta st tag fields = Except.ok st')
    (hall : ∀ r ∈ st.rows, r[22]? = some "") :
    ∀ r ∈ st'.rows, r[22]? = some "" := by
  unfold stepTag at h
  by_cases h1 : tag = "UNH"
  · rw [if_pos h1] at h
    cases h
    exact hall
  · rw [if_neg h1] at h
    by_cases h2 : tag = "BGM"
    · rw [if_pos h2] at h
      cases h
      exact hall
    · rw [if_neg h2] at h
      by_cases h3 : tag = "NAD"
      · rw [if_pos h3] at h
        cases h
        unfold nadStep
        repeat' split
        all_goals exact hall
      · rw [if_neg h3] at h
        by_cases h4 : tag = "GIS"
        · rw [if_pos h4] at h
          cases h
          split
          all_goals exact hall
        · rw [if_neg h4] at h
          by_cases h5 : tag = "RFF"
          · rw [if_pos h5] at h
            cases h
            exact hall
          · rw [if_neg h5] at h
            by_cases h6 : tag = "POL"
            · rw [if_pos h6] at h
              cases h
              exact hall
            · rw [if_neg h6] at h
              by_cases h7 : tag = "PDT"
              · rw [if_pos h7] at h
                rcases pdtStep_inv st fields st' h with ⟨i, rows', _, hf, rfl⟩ | ⟨_, rfl⟩
                · exact rowFold_pres _ (fun r => r[22]? = some "")
                    (fun r hp => by
                      dsimp only at hp ⊢
                      rw [List.getElem?_set_ne (by omega), List.getElem?_set_ne (by omega)]
                      exact hp) _ _ _ hf hall
                · exact hall
              · rw [if_neg h7] at h
                by_cases h8 : tag = "CNT"
                · rw [if_pos h8] at h
                  rcases cntStep_inv st fields st' h with ⟨rows', hf, rfl⟩
                  exact rowFold_pres _ (fun r => r[22]? = some "")
                    (fun r hp => by
                      dsimp only at hp ⊢
                      rw [List.getElem?_set_ne (by omega), List.getElem?_set_ne (by omega)]
                      exact hp) _ _ _ hf hall
                · rw [if_neg h8] at h
                  by_cases h9 : tag = "CHD"
                  · rw [if_pos h9] at h
                    rcases chdStep_inv meta st fields st' h with ⟨b, l, _, _, rfl⟩
                    intro r hr
                    rcases List.mem_append.mp hr with hmem | hmem
                    · exact hall r hmem
                    · rw [List.mem_singleton.mp hmem]
                      exact mkChdRow_get22 _ _ _ _ _ _
                  · rw [if_neg h9] at h
                    by_cases h10 : tag = "UNT"
                    · rw [if_pos h10] at h
                      rcases untStep_inv st fields st' h with
                        ⟨f0, rest, rows', _, _, hf, rfl⟩ | ⟨_, rfl⟩
                      · exact rowFold_pres _ (fun r => r[22]? = some "")
                          (fun r hp => by
                            dsimp only at hp ⊢
                            rw [List.getElem?_set_ne (by omega)]
                            exact hp) _ _ _ hf hall
                      · exact hall
                    · rw [if_neg h10] at h
                      cases h
                      exact hall

theorem runSegs_f22 (meta : UnbMeta) :
    ∀ (segs : List String) (st st' : LGState),
    runSegs meta st segs = Except.ok st' →
    (∀ r ∈ st.rows, r[22]? = some "") →
    ∀ r ∈ st'.rows, r[22]? = some "" := by
  intro segs
  induction segs with
  | nil =>
    intro st st' h hall
    simp [runSegs] at h
    exact h ▸ hall
  | cons s rest ih =>
    intro st st' h hall
    simp only [runSegs] at h
    cases hs : stepTag meta st (tokenise s).1 (tokenise s).2 with
    | error e =>
      rw [hs] at h
      exact Except.noConfusion h
    | ok st1 =>
      rw [hs] at h
      exact ih st1 st' h (step_f22 meta st _ _ st1 hs hall)

/-! ### Idempotence of the back-fill branches -/

theorem pdtStep_idem (st st' : LGState) (fields : List String)
    (h : pdtStep st fields = Except.ok st') : pdtStep st' fields = Except.ok st' := by
  rcases pdtStep_inv st fields st' h with ⟨i, rows', hb, hf, hst⟩ | ⟨hb, hst⟩
  · have hPDT : st'.PDT =
        ((parse_pdt_fields fields).1, pdtNorm (parse_pdt_fields fields).2) := by rw [hst]
    have hrows : st'.rows = rows' := by rw [hst]
    have hbucket : bucketOf st' = bucketOf st := by rw [hst]; rfl
    have hidem := rowFold_idem _
      (fun r => lgSet2Idem r 23 24 (pyOrS (parse_pdt_fields fields).1 "")
        (pyOrS (pdtNorm (parse_pdt_fields fields).2) "") (by omega)) [i] st.rows rows' hf
    simp only [pdtStep]
    have hsame : { st' with
        PDT := ((parse_pdt_fields fields).1, pdtNorm (parse_pdt_fields fields).2) } = st' := by
      rw [← hPDT]
    rw [hsame]
    split
    next i2 heq =>
      have heq' : (bucketOf st).bind List.getLast? = some i2 := by
        rw [← hbucket]
        exact heq
      rw [hb] at heq'
      injection heq' with hi
      subst hi
      split
      next rows2 heq2 =>
        rw [hrows, hidem] at heq2
        injection heq2 with hr
        subst hr
        rw [← hrows, ← hPDT]
      next e heq2 =>
        rw [hrows, hidem] at heq2
        exact Except.noConfusion heq2
    next heq =>
      have heq' : (bucketOf st).bind List.getLast? = none := by
        rw [← hbucket]
        exact heq
      rw [hb] at heq'
  · have hPDT : st'.PDT =
        ((parse_pdt_fields fields).1, pdtNorm (parse_pdt_fields fields).2) := by rw [hst]
    have hbucket : bucketOf st' = bucketOf st := by rw [hst]; rfl
    simp only [pdtStep]
    have hsame : { st' with
        PDT := ((parse_pdt_fields fields).1, pdtNorm (parse_pdt_fields fields).2) } = st' := by
      rw [← hPDT]
    rw [hsame]
    split
    next i2 heq =>
      have heq' : (bucketOf st).bind List.getLast? = some i2 := by
        rw [← hbucket]
        exact heq
      rw [hb] at heq'
      exact Option.noConfusion heq'
    next heq => rfl

theorem cntStep_idem (st st' : LGState) (fields : List String)
    (h : cntStep st fields = Except.ok st') : cntStep st' fields = Except.ok st' := by
  rcases cntStep_inv st fields st' h with ⟨rows', hf, hst⟩
  have hCNT : st'.CNT = parse_cnt_fields fields := by rw [hst]
  have hrows : st'.rows = rows' := by rw [hst]
  have hbucket : bucketOf st' = bucketOf st := by rw [hst]; rfl
  have hidem := rowFold_idem _
    (fun r => lgSet2Idem r 25 26 ((lookupA (parse_cnt_fields fields) "CTN").getD "")
      ((lookupA (parse_cnt_fields fields) "CAM").getD "") (by omega))
    ((bucketOf st).getD []) st.rows rows' hf
  simp only [cntStep]
  have hsame : { st' with CNT := parse_cnt_fields fields } = st' := by
    rw [← hCNT]
  rw [hsame, hbucket, hrows]
  split
  next rows2 heq2 =>
    rw [hidem] at heq2
    injection heq2 with hr
    subst hr
    rw [← hrows, ← hCNT]
  next e heq2 =>
    rw [hidem] at heq2
    exact Except.noConfusion heq2

theorem untStep_idem (st st' : LGState) (fields : List String)
    (h : untStep st fields = Except.ok st') : untStep st' fields = Except.ok st' := by
  rcases untStep_inv st fields st' h with ⟨f0, rest, rows', hfe, hf0, hf, hst⟩ | ⟨hfe, hst⟩
  · have hrows : st'.rows = rows' := by rw [hst]
    have hbucket : bucketOf st' = bucketOf st := by rw [hst]; rfl
    subst hfe
    unfold untStep
    dsimp only
    rw [if_pos hf0, hbucket, hrows]
    rw [rowFold_idem _ (fun r => by rw [List.set_set]) ((bucketOf st).getD [])
      st.rows rows' hf]
    rw [← hrows]
  · subst hst
    unfold untStep
    cases fields with
    | nil => rfl
    | cons f0 rest =>
      dsimp only
      simp only [List.headD] at hfe
      rw [if_neg (by simp [hfe])]

/-! ### The claims -/

/-- C1: whenever the decoder `convert_lg` returns a Record sequence, its
length equals the number of `CHD` segments in the tokenized segment
stream of the interchange. -/
theorem C1_record_count (text : String) (rows : List (List String))
    (h : convert_lg text = Except.ok rows) :
    rows.length = countCHD (parse_edi_segments text) := by
  unfold convert_lg at h
  cases hr : runSegs (unbMetaOf text) initState (parse_edi_segments text) with
  | error e =>
    rw [hr] at h
    exact Except.noConfusion h
  | ok st =>
    rw [hr] at h
    cases h
    have hlen := runSegs_len (unbMetaOf text) (parse_edi_segments text) initState st hr
    simpa [initState] using hlen

/-- Witness for C1 at the concrete interchange `UNH+1'CHD'`. -/
theorem C1_record_count_witness :
    (match convert_lg ("UNH+1" ++ apos ++ "CHD" ++ apos) with
     | Except.ok rows => rows.length
     | Except.error _ => 0) =
      countCHD (parse_edi_segments ("UNH+1" ++ apos ++ "CHD" ++ apos)) := by
  cases hr : convert_lg ("UNH+1" ++ apos ++ "CHD" ++ apos) with
  | error e =>
    cases e
    exact absurd hr (by decide)
  | ok rows => exact C1_record_count _ rows hr

/-- C2 counterexample: an interchange whose only segment is a `CHD` with
no preceding `UNH` makes `convert_lg` raise (the `rows_by_message`
`KeyError`), so the decoder does not return a Record sequence for every
input. -/
theorem C2_counterexample : convert_lg "CHD" = Except.error () := by rfl

/-- C2 (amended): `convert_lg` returns a (possibly empty) Record
sequence exactly when no `CHD` segment precedes the first `UNH` segment
of the tokenized stream; when some `CHD` comes before the first `UNH`
it raises a `KeyError` instead.  In particular it never raises for an
interchange with a valid `UNB` and no `CHD` segments. -/
theorem C2_amended (text : String) :
    okB (convert_lg text) = chdSafe (parse_edi_segments text) := by
  unfold convert_lg
  cases hc : chdSafe (parse_edi_segments text) with
  | false =>
    rw [runSegs_err (unbMetaOf text) (parse_edi_segments text) initState INV_init rfl hc]
    rfl
  | true =>
    obtain ⟨st', h⟩ := runSegs_ok (unbMetaOf text) (parse_edi_segments text) initState
      INV_init (fun _ => hc)
    rw [h]
    rfl

/-- C4: back-fill is last-write-wins: re-applying the same `PDT`, `CNT`
or `UNT` segment to the state it just produced returns that state
unchanged, so repeated consecutive applications before the next `UNH`
equal a single one and values never accumulate. -/
theorem C4_backfill_idem (meta : UnbMeta) (st : LGState) (tag : String)
    (fields : List String) (st' : LGState)
    (htag : tag = "PDT" ∨ tag = "CNT" ∨ tag = "UNT")
    (h : stepTag meta st tag fields = Except.ok st') :
    stepTag meta st' tag fields = Except.ok st' := by
  rcases htag with rfl | rfl | rfl
  · unfold stepTag at h ⊢
    rw [if_neg (by decide), if_neg (by decide), if_neg (by decide), if_neg (by decide),
      if_neg (by decide), if_neg (by decide), if_pos rfl] at h ⊢
    exact pdtStep_idem st st' fields h
  · unfold stepTag at h ⊢
    rw [if_neg (by decide), if_neg (by decide), if_neg (by decide), if_neg (by decide),
      if_neg (by decide), if_neg (by decide), if_neg (by decide), if_pos rfl] at h ⊢
    exact cntStep_idem st st' fields h
  · unfold stepTag at h ⊢
    rw [if_neg (by decide), if_neg (by decide), if_neg (by decide), if_neg (by decide),
      if_neg (by decide), if_neg (by decide), if_neg (by decide), if_neg (by decide),
      if_neg (by decide), if_pos rfl] at h ⊢
    exact untStep_idem st st' fields h

/-- Witness for C4: re-applying `CNT+CTN:5` to the state it produced
(after `UNH+1'CHD'`) leaves the state unchanged. -/
theorem C4_backfill_idem_witness :
    stepTag emptyMeta (stateAfter emptyMeta ["UNH+1", "CHD", "CNT+CTN:5"]) "CNT" ["CTN:5"] =
      Except.ok (stateAfter emptyMeta ["UNH+1", "CHD", "CNT+CTN:5"]) := by
  have h : stepTag emptyMeta (stateAfter emptyMeta ["UNH+1", "CHD"]) "CNT" ["CTN:5"] =
      Except.ok (stateAfter emptyMeta ["UNH+1", "CHD", "CNT+CTN:5"]) := by rfl
  exact C4_backfill_idem emptyMeta (stateAfter emptyMeta ["UNH+1", "CHD"]) "CNT" ["CTN:5"]
    (stateAfter emptyMeta ["UNH+1", "CHD", "CNT+CTN:5"]) (Or.inr (Or.inl rfl)) h

/-- C9: every Record returned by `convert_lg` has the empty string in
output field 22 (premium currency), regardless of the input. -/
theorem C9_premium_currency_blank (text : String) (rows : List (List String))
    (h : convert_lg text = Except.ok rows) (r : List String) (hr : r ∈ rows) :
    r[22]? = some "" := by
  unfold convert_lg at h
  cases hrun : runSegs (unbMetaOf text) initState (parse_edi_segments text) with
  | error e =>
    rw [hrun] at h
    exact Except.noConfusion h
  | ok st =>
    rw [hrun] at h
    cases h
    exact runSegs_f22 (unbMetaOf text) (parse_edi_segments text) initState st hrun
      (fun r hr => by simp [initState] at hr) r hr

/-- Witness for C9 at the concrete interchange `UNH+1'CHD'`. -/
theorem C9_premium_currency_blank_witness :
    (match convert_lg ("UNH+1" ++ apos ++ "CHD" ++ apos) with
     | Except.ok rows => (rows.headD [])[22]?
     | Except.error _ => none) = some "" := by
  cases hr : convert_lg ("UNH+1" ++ apos ++ "CHD" ++ apos) with
  | error e =>
    cases e
    exact absurd hr (by decide)
  | ok rows =>
    cases rows with
    | nil => exact absurd hr (by decide)
    | cons r rest =>
      exact C9_premium_currency_blank _ _ hr r (List.mem_cons_self r rest)

/-- C10: an `RFF` segment carrying an `IFN` entry but no `POL` entry,
seen while no policy reference is current, leaves the decoder state
completely unchanged (the IFN value is silently discarded); and any
Record created while no `IFN` is recorded for the current policy gets
the empty string in output field 33. -/
theorem C10_ifn_scoping :
    (∀ (meta : UnbMeta) (st : LGState) (fields : List String),
       (lookupA (parse_rff_fields fields) "IFN").isSome = true →
       lookupA (parse_rff_fields fields) "POL" = none →
       st.RFF_POL = none →
       stepTag meta st "RFF" fields = Except.ok st) ∧
    (∀ (meta : UnbMeta) (st : LGState) (fields : List String) (st' : LGState),
       stepTag meta st "CHD" fields = Except.ok st' →
       ifnFor st = "" →
       ∃ r, st'.rows = st.rows ++ [r] ∧ r[33]? = some "") := by
  constructor
  · intro meta st fields hIFN hPOL hRP
    unfold stepTag
    rw [if_neg (by decide), if_neg (by decide), if_neg (by decide), if_neg (by decide),
      if_pos rfl]
    obtain ⟨iv, hiv⟩ := Option.isSome_iff_exists.mp hIFN
    simp only [rffStep, hPOL, hiv, hRP]
    rw [← hRP]
  · intro meta st fields st' h hifn
    unfold stepTag at h
    rw [if_neg (by decide), if_neg (by decide), if_neg (by decide), if_neg (by decide),
      if_neg (by decide), if_neg (by decide), if_neg (by decide), if_neg (by decide),
      if_pos rfl] at h
    rcases chdStep_inv meta st fields st' h with ⟨b, l, hb, hl, rfl⟩
    refine ⟨_, rfl, ?_⟩
    rw [mkChdRow_get33, hifn]
    rfl

/-- Witness for C10: a lone `RFF+IFN:ABC` from the initial state (no
policy current) is a no-op, and a `CHD` from a state with no recorded
IFN yields field 33 empty. -/
theorem C10_ifn_scoping_witness :
    stepTag emptyMeta initState "RFF" ["IFN:ABC"] = Except.ok initState := by
  exact C10_ifn_scoping.1 emptyMeta initState ["IFN:ABC"] (by decide) (by decide) rfl

/-- C5 counterexample: on the exact input segment of the claim
(`UNB+X+Y+SENDER+0099+202401011200+REF123`), the code takes `f[2] = "Y"`
as the sender — the claimed segment carries one field too many, so the
expected values are shifted by one position. -/
theorem C5_counterexample :
    unbMetaOf ("UNB+X+Y+SENDER+0099+202401011200+REF123" ++ apos) =
      ⟨some "Y", some "SENDER", some "0099", some "202401011200"⟩ ∧
    (some "Y" : Option String) ≠ some "SENDER" := by
  exact ⟨by rfl, by decide⟩

/-- C5 (amended): for the input segment
`UNB+X+SENDER+0099+202401011200+REF123` (a single service field before
the sender, as the claimed output values imply), envelope extraction
yields sender `"SENDER"`, recipient `"99"` (leading zeros stripped),
datetime `"202401011200"` and control reference `"REF123"`. -/
theorem C5_amended :
    unbMetaOf ("UNB+X+SENDER+0099+202401011200+REF123" ++ apos) =
      ⟨some "SENDER", some "99", some "202401011200", some "REF123"⟩ := by rfl

/-- C6 counterexample: a `PDT` sub-code of `"00"` is back-filled into
Record field 24 as `"0"`, not as the empty string: `lstrip_zeros` maps
all-zero strings to `"0"`. -/
theorem C6_counterexample :
    getCellE (convert_lg ("UNH+1" ++ apos ++ "CHD" ++ apos ++ "PDT+T+00" ++ apos)) 0 24 =
      some "0" ∧ (some "0" : Option String) ≠ some "" := by
  exact ⟨by rfl, by decide⟩

/-- C6 (amended): the PDT sub-code is normalised by `pdtNorm` (leading
zeros stripped when the field is non-empty, an all-zero value becoming
`"0"`) both in the stored context pair and in the value back-filled into
Record field 24; `"01"` yields `"1"` and `"00"` yields `"0"`. -/
theorem C6_amended (meta : UnbMeta) (st : LGState)
    (hlen : ∀ r ∈ st.rows, r.length = 37)
    (p1 p2 : String) (rest : List String) (st' : LGState)
    (h : stepTag meta st "PDT" (p1 :: p2 :: rest) = Except.ok st') :
    st'.PDT = (p1, pdtNorm p2) ∧
    pdtNorm "01" = "1" ∧ pdtNorm "00" = "0" ∧
    (∀ i, (bucketOf st).bind List.getLast? = some i →
      getCell st'.rows i 24 = some (pyOrS (pdtNorm p2) "")) := by
  have hpf : parse_pdt_fields (p1 :: p2 :: rest) = (p1, p2) := by
    unfold parse_pdt_fields
    by_cases h1 : p1 = "" <;> by_cases h2 : p2 = "" <;> simp [h1, h2]
  unfold stepTag at h
  rw [if_neg (by decide), if_neg (by decide), if_neg (by decide), if_neg (by decide),
    if_neg (by decide), if_neg (by decide), if_pos rfl] at h
  rcases pdtStep_inv st (p1 :: p2 :: rest) st' h with ⟨i, rows', hb, hf, rfl⟩ | ⟨hb, rfl⟩
  · refine ⟨by rw [hpf], by rfl, by rfl, fun i' hb' => ?_⟩
    rw [hb] at hb'
    injection hb' with hi
    subst hi
    simp only [rowFold] at hf
    cases hg : st.rows[i]? with
    | none => rw [hg] at hf; exact Except.noConfusion hf
    | some r =>
      rw [hg] at hf
      simp only [rowFold] at hf
      injection hf with hrows'
      subst hrows'
      have hr37 : r.length = 37 := hlen r (lgGetMem hg)
      unfold getCell
      rw [lgGetSetSelf (lgGetLtLength hg)]
      show ((r.set 23 _).set 24 _)[24]? = _
      rw [lgGetSetSelf (by rw [List.length_set]; omega)]
      rw [hpf]
  · refine ⟨by rw [hpf], by rfl, by rfl, fun i' hb' => ?_⟩
    rw [hb] at hb'
    exact Option.noConfusion hb'

/-- Witness for C6 (amended) at a concrete PDT step with sub-codes
`"01"` and `"00"`. -/
theorem C6_amended_witness : pdtNorm "01" = "1" ∧ pdtNorm "00" = "0" := by
  have h : stepTag emptyMeta initState "PDT" ["T", "01"] =
      Except.ok { initState with PDT := ("T", "1") } := by rfl
  have hc := C6_amended emptyMeta initState (fun r hr => by simp [initState] at hr)
    "T" "01" [] _ h
  exact ⟨hc.2.1, hc.2.2.1⟩

/-- C7 counterexample: for a `CHD` whose field[1] is `N:CBS`, output
field 18 is `"N"` even though field[1] is present and its first
sub-element `"N"` is non-empty — the claimed equivalence fails
right-to-left. -/
theorem C7_counterexample :
    getCellE (convert_lg ("UNH+1" ++ apos ++ "CHD+A+N:CBS" ++ apos)) 0 18 = some "N" ∧
    (splitCS "N:CBS" ':').headD "" ≠ "" := by
  exact ⟨by rfl, by decide⟩

/-- C7 (amended): output Record field 18 equals `"N"` when the CHD's
field[1] is absent, empty, or has an empty first colon sub-element, and
otherwise equals that first sub-element — which may itself be `"N"`, so
`field 18 = "N"` does not imply the defaulting case. -/
theorem C7_amended (meta : UnbMeta) (st : LGState) (basis : String)
    (policy : Option String) (ifn : String) (fields : List String) :
    (mkChdRow meta st (parse_chd_fields fields) basis policy ifn)[18]? =
      some (match fields[1]? with
            | none => "N"
            | some f1 =>
              if f1 = "" ∨ (splitCS f1 ':').headD "" = "" then "N"
              else (splitCS f1 ':').headD "") := by
  rw [mkChdRow_get18]
  have hq : (parse_chd_fields fields).chd_cur_qual =
      (match fields[1]? with
       | some f1 =>
         if f1 ≠ "" then
           (if (splitCS f1 ':').headD "" ≠ "" then some ((splitCS f1 ':').headD "") else none)
         else none
       | none => none) := rfl
  rw [hq]
  cases fields[1]? with
  | none => rfl
  | some f1 =>
    dsimp only
    by_cases he : f1 = ""
    · rw [if_neg (fun hne => hne he), if_pos (Or.inl he)]
      rfl
    · rw [if_pos he]
      by_cases hc : (splitCS f1 ':').headD "" = ""
      · rw [if_neg (fun hne => hne hc), if_pos (Or.inr hc)]
        rfl
      · rw [if_pos hc, if_neg (by
          rintro (h1 | h2)
          · exact he h1
          · exact hc h2)]
        show some (if (splitCS f1 ':').headD "" = "" then "N" else (splitCS f1 ':').headD "") =
          some ((splitCS f1 ':').headD "")
        rw [if_neg hc]

/-- The party-qualifier scan only ever writes `PH` or `MR`. -/
theorem polLoop_party (all : List String) :
    ∀ (fs : List String) (i : Nat) (d : PolData),
    (polLoop all fs i d).party_qual = d.party_qual ∨
    (polLoop all fs i d).party_qual = some "PH" ∨
    (polLoop all fs i d).party_qual = some "MR" := by
  intro fs
  induction fs with
  | nil => intro i d; exact Or.inl rfl
  | cons f fs ih =>
    intro i d
    unfold polLoop
    by_cases hcond : f ≠ "" ∧ (f = "PH" ∨ f = "MR")
    · rw [if_pos hcond]
      rcases hcond.2 with rfl | rfl
      · refine Or.inr (Or.inl ?_)
        dsimp only
        repeat' split
        all_goals rfl
      · refine Or.inr (Or.inr ?_)
        dsimp only
        repeat' split
        all_goals rfl
    · rw [if_neg hcond]
      exact ih (i + 1) d

/-- The party-qualifier scan never touches the basis-of-sale slot. -/
theorem polLoop_basis (all : List String) :
    ∀ (fs : List String) (i : Nat) (d : PolData),
    (polLoop all fs i d).basis_of_sale = d.basis_of_sale := by
  intro fs
  induction fs with
  | nil => intro i d; rfl
  | cons f fs ih =>
    intro i d
    unfold polLoop
    by_cases hcond : f ≠ "" ∧ (f = "PH" ∨ f = "MR")
    · rw [if_pos hcond]
      dsimp only
      repeat' split
      all_goals rfl
    · rw [if_neg hcond]
      exact ih (i + 1) d

theorem isTwoDigits_ne_empty (s : String) (h : isTwoDigits s = true) : s ≠ "" := by
  intro he
  subst he
  simp [isTwoDigits] at h

/-- C8: `parse_pol_fields` assigns the party qualifier only for `PH` or
`MR` (never `"99"`), while a first field of exactly two digits — `"99"`
included — becomes the basis-of-sale code. -/
theorem C8_pol_qualifiers (fields : List String) :
    ((parse_pol_fields fields).party_qual = none ∨
     (parse_pol_fields fields).party_qual = some "PH" ∨
     (parse_pol_fields fields).party_qual = some "MR") ∧
    (parse_pol_fields fields).party_qual ≠ some "99" ∧
    (∀ f rest, fields = f :: rest → isTwoDigits f = true →
      (parse_pol_fields fields).basis_of_sale = some f) := by
  have key : ∀ d0 : PolData, d0.party_qual = none →
      ((polLoop fields fields 0 d0).party_qual = none ∨
       (polLoop fields fields 0 d0).party_qual = some "PH" ∨
       (polLoop fields fields 0 d0).party_qual = some "MR") := by
    intro d0 h0
    rcases polLoop_party fields fields 0 d0 with h | h | h
    · exact Or.inl (h.trans h0)
    · exact Or.inr (Or.inl h)
    · exact Or.inr (Or.inr h)
  have hdisj : (parse_pol_fields fields).party_qual = none ∨
      (parse_pol_fields fields).party_qual = some "PH" ∨
      (parse_pol_fields fields).party_qual = some "MR" := by
    unfold parse_pol_fields
    dsimp only
    apply key
    split
    · rfl
    · split
      · rfl
      · rfl
  refine ⟨hdisj, ?_, ?_⟩
  · intro hq
    rcases hdisj with h | h | h
    · exact absurd (h.symm.trans hq) (by decide)
    · exact absurd (h.symm.trans hq) (by decide)
    · exact absurd (h.symm.trans hq) (by decide)
  · intro f rest hfe htd
    subst hfe
    unfold parse_pol_fields
    rw [polLoop_basis]
    have hne : f ≠ "" := isTwoDigits_ne_empty f htd
    have hp : pyOrS f "" = f := by
      unfold pyOrS
      rw [if_neg hne]
    dsimp only
    rw [hp, if_pos htd]

/-- Witness for C8 at the concrete field list `["99"]`. -/
theorem C8_pol_qualifiers_witness :
    (parse_pol_fields ["99"]).party_qual ≠ some "99" ∧
    (parse_pol_fields ["99"]).basis_of_sale = some "99" := by
  have h := C8_pol_qualifiers ["99"]
  exact ⟨h.2.1, h.2.2 "99" [] rfl (by decide)⟩

theorem curIdxs_lt (st : LGState) : ∀ j ∈ curIdxs st, j < st.rows.length := by
  unfold curIdxs
  cases st.batch_seq with
  | none => intro j hj; simp at hj
  | some b => intro j hj; exact msgIdxs_lt st.rows b j hj

/-- C3 counterexample: with two `UNH+1` messages sharing the batch value
`"1"`, the `CNT` inside the second message back-fills field 25 of the
Record created under the first `UNH` — buckets are keyed by the
batch-sequence value, not by the UNH occurrence. -/
theorem C3_counterexample :
    getCellE (convert_lg ("UNH+1" ++ apos ++ "CHD" ++ apos ++ "UNH+1" ++ apos ++
      "CNT+CTN:5" ++ apos)) 0 25 = some "5" ∧
    (some "5" : Option String) ≠ some "" := by
  exact ⟨by rfl, by decide⟩

/-- C3 (amended): in any state reachable by the decoder, back-fills
target Records by batch-sequence *value*: `CNT` writes columns 25-26 of
exactly the rows whose creation-time batch sequence (column 1) equals
the current one and leaves every other row and column untouched; `UNT`
does the same for column 27; `PDT` writes only columns 23-24 of the most
recent such row.  When two distinct `UNH` segments carry the same batch
sequence value, rows created under the earlier one are therefore also
written. -/
theorem C3_amended (meta : UnbMeta) (segs : List String) (st : LGState)
    (hreach : runSegs meta initState segs = Except.ok st)
    (tag : String) (fields : List String) (st' : LGState)
    (h : stepTag meta st tag fields = Except.ok st') :
    (tag = "CNT" →
      (∀ j, j ∉ curIdxs st → st'.rows[j]? = st.rows[j]?) ∧
      (∀ j ∈ curIdxs st, ∀ k, k ≠ 25 → k ≠ 26 →
        getCell st'.rows j k = getCell st.rows j k) ∧
      (∀ j ∈ curIdxs st,
        getCell st'.rows j 25 = some ((lookupA (parse_cnt_fields fields) "CTN").getD "") ∧
        getCell st'.rows j 26 = some ((lookupA (parse_cnt_fields fields) "CAM").getD ""))) ∧
    (tag = "UNT" → fields.headD "" ≠ "" →
      (∀ j, j ∉ curIdxs st → st'.rows[j]? = st.rows[j]?) ∧
      (∀ j ∈ curIdxs st, ∀ k, k ≠ 27 → getCell st'.rows j k = getCell st.rows j k) ∧
      (∀ j ∈ curIdxs st, getCell st'.rows j 27 = some (fields.headD ""))) ∧
    (tag = "PDT" →
      (∀ j, (curIdxs st).getLast? ≠ some j → st'.rows[j]? = st.rows[j]?) ∧
      (∀ j, (curIdxs st).getLast? = some j →
        (∀ k, k ≠ 23 → k ≠ 24 → getCell st'.rows j k = getCell st.rows j k) ∧
        getCell st'.rows j 23 = some (pyOrS (parse_pdt_fields fields).1 "") ∧
        getCell st'.rows j 24 = some (pyOrS (pdtNorm (parse_pdt_fields fields).2) ""))) := by
  have hI : INV st := runSegs_INV meta segs initState st INV_init hreach
  refine ⟨?_, ?_, ?_⟩
  · rintro rfl
    unfold stepTag at h
    rw [if_neg (by decide), if_neg (by decide), if_neg (by decide), if_neg (by decide),
      if_neg (by decide), if_neg (by decide), if_neg (by decide), if_pos rfl] at h
    rcases cntStep_inv st fields st' h with ⟨rows', hf, rfl⟩
    rw [bucketD_eq st hI] at hf
    have hm := rowFold_get_mem _
      (fun r => lgSet2Idem r 25 26 ((lookupA (parse_cnt_fields fields) "CTN").getD "")
        ((lookupA (parse_cnt_fields fields) "CAM").getD "") (by omega)) _ _ _ hf
    refine ⟨?_, ?_, ?_⟩
    · intro j hj
      exact rowFold_get_notMem _ _ _ _ hf j hj
    · intro j hj k h25 h26
      obtain ⟨r, hr⟩ := lgGetOfLt (curIdxs_lt st j hj)
      show getCell rows' j k = getCell st.rows j k
      unfold getCell
      rw [hm j hj, hr]
      show ((r.set 25 _).set 26 _)[k]? = r[k]?
      rw [List.getElem?_set_ne (fun he => h26 he.symm),
        List.getElem?_set_ne (fun he => h25 he.symm)]
    · intro j hj
      obtain ⟨r, hr⟩ := lgGetOfLt (curIdxs_lt st j hj)
      have hr37 : r.length = 37 := hI.2.2 r (lgGetMem hr)
      constructor
      · show getCell rows' j 25 = _
        unfold getCell
        rw [hm j hj, hr]
        show ((r.set 25 _).set 26 _)[25]? = _
        rw [List.getElem?_set_ne (by omega)]
        exact lgGetSetSelf (by omega)
      · show getCell rows' j 26 = _
        unfold getCell
        rw [hm j hj, hr]
        show ((r.set 25 _).set 26 _)[26]? = _
        exact lgGetSetSelf (by rw [List.length_set]; omega)
  · rintro rfl hne
    unfold stepTag at h
    rw [if_neg (by decide), if_neg (by decide), if_neg (by decide), if_neg (by decide),
      if_neg (by decide), if_neg (by decide), if_neg (by decide), if_neg (by decide),
      if_neg (by decide), if_pos rfl] at h
    rcases untStep_inv st fields st' h with ⟨f0, rest, rows', hfe, hf0, hf, rfl⟩ | ⟨hfe, rfl⟩
    · subst hfe
      rw [bucketD_eq st hI] at hf
      have hm := rowFold_get_mem _ (fun r => by rw [List.set_set]) _ _ _ hf
      refine ⟨?_, ?_, ?_⟩
      · intro j hj
        exact rowFold_get_notMem _ _ _ _ hf j hj
      · intro j hj k h27
        obtain ⟨r, hr⟩ := lgGetOfLt (curIdxs_lt st j hj)
        show getCell rows' j k = getCell st.rows j k
        unfold getCell
        rw [hm j hj, hr]
        show (r.set 27 _)[k]? = r[k]?
        rw [List.getElem?_set_ne (fun he => h27 he.symm)]
      · intro j hj
        obtain ⟨r, hr⟩ := lgGetOfLt (curIdxs_lt st j hj)
        have hr37 : r.length = 37 := hI.2.2 r (lgGetMem hr)
        show getCell rows' j 27 = _
        unfold getCell
        rw [hm j hj, hr]
        show (r.set 27 _)[27]? = _
        exact lgGetSetSelf (by omega)
    · exact absurd hfe hne
  · rintro rfl
    unfold stepTag at h
    rw [if_neg (by decide), if_neg (by decide), if_neg (by decide), if_neg (by decide),
      if_neg (by decide), if_neg (by decide), if_pos rfl] at h
    rcases pdtStep_inv st fields st' h with ⟨i, rows', hb, hf, rfl⟩ | ⟨hb, rfl⟩
    · have hlast : (curIdxs st).getLast? = some i := by
        rw [← bucketLast_eq st hI]
        exact hb
      refine ⟨?_, ?_⟩
      · intro j hj
        have hji : j ≠ i := by
          intro he
          subst he
          exact hj hlast
        exact rowFold_get_notMem _ [i] _ _ hf j (by simp [hji])
      · intro j hjeq
        rw [hlast] at hjeq
        injection hjeq with hij
        subst hij
        simp only [rowFold] at hf
        cases hgr : st.rows[i]? with
        | none => rw [hgr] at hf; exact Except.noConfusion hf
        | some r =>
          rw [hgr] at hf
          simp only [rowFold] at hf
          injection hf with hrows'
          subst hrows'
          have hr37 : r.length = 37 := hI.2.2 r (lgGetMem hgr)
          refine ⟨?_, ?_, ?_⟩
          · intro k h23 h24
            unfold getCell
            rw [lgGetSetSelf (lgGetLtLength hgr), hgr]
            show ((r.set 23 _).set 24 _)[k]? = r[k]?
            rw [List.getElem?_set_ne (fun he => h24 he.symm),
              List.getElem?_set_ne (fun he => h23 he.symm)]
          · unfold getCell
            rw [lgGetSetSelf (lgGetLtLength hgr)]
            show ((r.set 23 _).set 24 _)[23]? = _
            rw [List.getElem?_set_ne (by omega)]
            exact lgGetSetSelf (by omega)
          · unfold getCell
            rw [lgGetSetSelf (lgGetLtLength hgr)]
            show ((r.set 23 _).set 24 _)[24]? = _
            exact lgGetSetSelf (by rw [List.length_set]; omega)
    · have hlast : (curIdxs st).getLast? = none := by
        rw [← bucketLast_eq st hI]
        exact hb
      refine ⟨fun j _ => rfl, fun j hjeq => ?_⟩
      rw [hlast] at hjeq
      exact Option.noConfusion hjeq

/-- Witness for C3 (amended): a `CNT+CTN:5` after `UNH+1'CHD'` writes
`"5"` into column 25 of row 0, the single row of the current batch. -/
theorem C3_amended_witness :
    getCell (stateAfter emptyMeta ["UNH+1", "CHD", "CNT+CTN:5"]).rows 0 25 = some "5" := by
  have hreach : runSegs emptyMeta initState ["UNH+1", "CHD"] =
      Except.ok (stateAfter emptyMeta ["UNH+1", "CHD"]) := by rfl
  have hstep : stepTag emptyMeta (stateAfter emptyMeta ["UNH+1", "CHD"]) "CNT" ["CTN:5"] =
      Except.ok (stateAfter emptyMeta ["UNH+1", "CHD", "CNT+CTN:5"]) := by rfl
  have hc := (C3_amended emptyMeta ["UNH+1", "CHD"] (stateAfter emptyMeta ["UNH+1", "CHD"])
    hreach "CNT" ["CTN:5"] (stateAfter emptyMeta ["UNH+1", "CHD", "CNT+CTN:5"]) hstep).1 rfl
  have h25 := (hc.2.2 0 (by decide)).1
  rw [h25]
  rfl

end EDI
